import Mathlib

/-!
Verification of the `dm_env` RL environment interface.

This file gives a shallow embedding, in Lean 4, of the parts of the
`dm_env` Python package that carry algorithmic content:

* `_environment.py`: the `StepType` enumeration, the `TimeStep` record and
  the four helper constructors `restart`, `transition`, `termination`,
  `truncation`;
* `auto_reset_environment.py`: the `AutoResetEnvironment` wrapper and its
  reset-pending flag;
* `specs.py`: the `Array` / `BoundedArray` / `DiscreteArray` / `StringArray`
  value-spec hierarchy, including NumPy-style broadcasting of bounds,
  element-type casting, validation, value generation, `replace` and
  equality dispatch.

Numeric array elements are modelled exactly, as rationals extended with the
two infinities (`Val`).  Floating-point rounding and NaN are outside the
model; integer dtypes carry their exact value ranges, and casting a value
that does not fit the target integer dtype is modelled as a failure, as in
NumPy 2.x, which raises `OverflowError` for out-of-range conversions.
-/

set_option autoImplicit false

namespace DmEnv

/-- Lifecycle marker of a `TimeStep`, from the Python `StepType` enum. -/
inductive StepType where
  | FIRST
  | MID
  | LAST
deriving DecidableEq, Repr

/-- Predicate `StepType.first`, from `_environment.py`. -/
def StepType.first : StepType → Bool
  | .FIRST => true
  | _ => false

/-- Predicate `StepType.mid`, from `_environment.py`. -/
def StepType.mid : StepType → Bool
  | .MID => true
  | _ => false

/-- Predicate `StepType.last`, from `_environment.py`. -/
def StepType.last : StepType → Bool
  | .LAST => true
  | _ => false

/-- The `TimeStep` namedtuple of `_environment.py`.  Rewards and discounts
are scalars in the claims treated here; they are modelled as exact
rationals, absent values (`None`) as `Option.none`.  The observation type
is a parameter. -/
structure TimeStep (ω : Type) where
  step_type : StepType
  reward : Option ℚ
  discount : Option ℚ
  observation : ω
deriving DecidableEq, Repr

/-- Method `TimeStep.first`: `self.step_type == StepType.FIRST`. -/
def TimeStep.first {ω : Type} (t : TimeStep ω) : Bool := t.step_type = StepType.FIRST

/-- Method `TimeStep.mid`: `self.step_type == StepType.MID`. -/
def TimeStep.mid {ω : Type} (t : TimeStep ω) : Bool := t.step_type = StepType.MID

/-- Method `TimeStep.last`: `self.step_type == StepType.LAST`. -/
def TimeStep.last {ω : Type} (t : TimeStep ω) : Bool := t.step_type = StepType.LAST

/-- Helper `restart(observation)` of `_environment.py`:
`TimeStep(StepType.FIRST, None, None, observation)`. -/
def restart {ω : Type} (observation : ω) : TimeStep ω :=
  ⟨StepType.FIRST, none, none, observation⟩

/-- Helper `transition(reward, observation, discount=1.0)` of
`_environment.py`: `TimeStep(StepType.MID, reward, discount, observation)`.
The Python default `discount=1.0` corresponds to instantiating `discount`
at `1`. -/
def transition {ω : Type} (reward : ℚ) (observation : ω) (discount : ℚ) : TimeStep ω :=
  ⟨StepType.MID, some reward, some discount, observation⟩

/-- Helper `termination(reward, observation)` of `_environment.py`:
`TimeStep(StepType.LAST, reward, 0.0, observation)`. -/
def termination {ω : Type} (reward : ℚ) (observation : ω) : TimeStep ω :=
  ⟨StepType.LAST, some reward, some 0, observation⟩

/-- Helper `truncation(reward, observation, discount=1.0)` of
`_environment.py`: `TimeStep(StepType.LAST, reward, discount, observation)`.
The Python default `discount=1.0` corresponds to instantiating `discount`
at `1`. -/
def truncation {ω : Type} (reward : ℚ) (observation : ω) (discount : ℚ) : TimeStep ω :=
  ⟨StepType.LAST, some reward, some discount, observation⟩

/-! ## The auto-reset wrapper (`auto_reset_environment.py`), pure model

A concrete subclass of `AutoResetEnvironment` supplies `_reset` and
`_step`, which act on the subclass's own internal state `σ` and return a
`TimeStep`.  The wrapper adds the boolean field `_reset_next_step`. -/

/-- The `_reset` / `_step` methods provided by a subclass of
`AutoResetEnvironment`, acting on subclass state `σ`, actions `α` and
observations `ω`. -/
structure InnerEnv (σ α ω : Type) where
  resetFn : σ → σ × TimeStep ω
  stepFn : σ → α → σ × TimeStep ω

/-- State of an `AutoResetEnvironment` instance: the subclass state plus
the wrapper's `_reset_next_step` flag. -/
structure AutoResetState (σ : Type) where
  inner : σ
  reset_next_step : Bool
deriving DecidableEq, Repr

namespace AutoReset

variable {σ α ω : Type}

/-- `AutoResetEnvironment.__init__`: `self._reset_next_step = True`. -/
def init (s0 : σ) : AutoResetState σ :=
  ⟨s0, true⟩

/-- Public `AutoResetEnvironment.reset`:
`self._reset_next_step = False; return self._reset()`. -/
def reset (E : InnerEnv σ α ω) (st : AutoResetState σ) : AutoResetState σ × TimeStep ω :=
  let r := E.resetFn st.inner
  (⟨r.1, false⟩, r.2)

/-- Public `AutoResetEnvironment.step`: if `self._reset_next_step` then
`return self.reset()`, else run `self._step(action)` and set
`self._reset_next_step = timestep.last()`. -/
def step (E : InnerEnv σ α ω) (st : AutoResetState σ) (a : α) : AutoResetState σ × TimeStep ω :=
  if st.reset_next_step then
    reset E st
  else
    let r := E.stepFn st.inner a
    (⟨r.1, r.2.last⟩, r.2)

/-- Run a sequence of public `step` calls, collecting the returned
timesteps in order. -/
def stepsFrom (E : InnerEnv σ α ω) : AutoResetState σ → List α → List (TimeStep ω)
  | _, [] => []
  | st, a :: as =>
    let r := step E st a
    r.2 :: stepsFrom E r.1 as

/-- A public call on the wrapper: either `reset()` or `step(action)`. -/
inductive EnvCall (α : Type) where
  | resetCall
  | stepCall (a : α)

/-- Run an arbitrary sequence of public `reset` / `step` calls, collecting
the returned timesteps in order. -/
def runCalls (E : InnerEnv σ α ω) : AutoResetState σ → List (EnvCall α) → List (TimeStep ω)
  | _, [] => []
  | st, .resetCall :: cs =>
    let r := reset E st
    r.2 :: runCalls E r.1 cs
  | st, .stepCall a :: cs =>
    let r := step E st a
    r.2 :: runCalls E r.1 cs

end AutoReset

/-- The markers (step types) of a list of timesteps. -/
def markers {ω : Type} (ts : List (TimeStep ω)) : List StepType :=
  ts.map TimeStep.step_type

/-- The transition rule claimed by the specification for a sequence of
returned markers: the n-th marker is FIRST iff n = 0 or the previous
marker was LAST.  Positions are read with `getD` under a bound on `n`. -/
def FirstIffPrevLast (ms : List StepType) : Prop :=
  ∀ n : ℕ, n < ms.length →
    (ms.getD n StepType.MID = StepType.FIRST ↔
      (n = 0 ∨ ms.getD (n - 1) StepType.MID = StepType.LAST))

instance firstIffPrevLastDecidable (ms : List StepType) : Decidable (FirstIffPrevLast ms) :=
  Nat.decidableBallLT ms.length _

/-- An inner environment whose `_reset` always returns a FIRST step and
whose `_step` never returns a FIRST step, as the `dm_env` contract
demands of subclasses. -/
def ProperInner {σ α ω : Type} (E : InnerEnv σ α ω) : Prop :=
  (∀ s : σ, (E.resetFn s).2.step_type = StepType.FIRST) ∧
  (∀ (s : σ) (a : α), (E.stepFn s a).2.step_type ≠ StepType.FIRST)

/-- The `FakeEnvironment` of `auto_reset_environment_test.py` with
`step_limit = 5`: `_reset` zeroes the step counter and returns
`restart(...)`; `_step` increments it and returns `transition(0.0, ...)`
below the limit and `termination(0.0, ...)` at the limit. -/
def fakeEnv5 : InnerEnv ℕ Unit Unit where
  resetFn := fun _ => (0, restart ())
  stepFn := fun s _ =>
    let s' := s + 1
    if s' < 5 then (s', transition 0 () 1) else (s', termination 0 ())

/-- A minimal inner environment whose `_step` always returns MID; used to
exhibit a mixed `step`/`reset` call sequence on which the claimed
bidirectional FIRST rule fails. -/
def midEnv : InnerEnv Unit Unit Unit where
  resetFn := fun _ => ((), restart ())
  stepFn := fun _ _ => ((), transition 0 () 1)

/-- Markers produced by a run of public `step` calls. -/
def msFrom {σ α ω : Type} (E : InnerEnv σ α ω) (st : AutoResetState σ) (acts : List α) :
    List StepType :=
  markers (AutoReset.stepsFrom E st acts)

lemma msFrom_nil {σ α ω : Type} (E : InnerEnv σ α ω) (st : AutoResetState σ) :
    msFrom E st [] = [] := rfl

lemma msFrom_cons {σ α ω : Type} (E : InnerEnv σ α ω) (st : AutoResetState σ)
    (a : α) (as : List α) :
    msFrom E st (a :: as) =
      (AutoReset.step E st a).2.step_type :: msFrom E (AutoReset.step E st a).1 as := rfl

lemma step_marker_first {σ α ω : Type} {E : InnerEnv σ α ω} (hE : ProperInner E)
    (st : AutoResetState σ) (a : α) :
    (AutoReset.step E st a).2.step_type = StepType.FIRST ↔ st.reset_next_step = true := by
  unfold AutoReset.step
  by_cases h : st.reset_next_step = true
  · simp [h, AutoReset.reset, hE.1 st.inner]
  · simp only [Bool.not_eq_true] at h
    simp [h, hE.2 st.inner a]

lemma step_flag_last {σ α ω : Type} {E : InnerEnv σ α ω} (hE : ProperInner E)
    (st : AutoResetState σ) (a : α) :
    (AutoReset.step E st a).1.reset_next_step = true ↔
      (AutoReset.step E st a).2.step_type = StepType.LAST := by
  unfold AutoReset.step
  by_cases h : st.reset_next_step = true
  · have h1 := hE.1 st.inner
    simp [h, AutoReset.reset, h1]
  · simp only [Bool.not_eq_true] at h
    simp only [h, Bool.false_eq_true, if_false]
    constructor
    · intro hl
      simpa [TimeStep.last, decide_eq_true_eq] using hl
    · intro hl
      simp [TimeStep.last, hl]

lemma msFrom_spec {σ α ω : Type} {E : InnerEnv σ α ω} (hE : ProperInner E) :
    ∀ (acts : List α) (st : AutoResetState σ) (n : ℕ), n < (msFrom E st acts).length →
      ((msFrom E st acts).getD n StepType.MID = StepType.FIRST ↔
        ((n = 0 ∧ st.reset_next_step = true) ∨
          (1 ≤ n ∧ (msFrom E st acts).getD (n - 1) StepType.MID = StepType.LAST)))
  | [], st, n, hn => by simp [msFrom_nil] at hn
  | a :: as, st, 0, hn => by
    rw [msFrom_cons]
    simpa using step_marker_first hE st a
  | a :: as, st, Nat.succ k, hn => by
    rw [msFrom_cons] at hn ⊢
    simp only [List.length_cons, Nat.succ_lt_succ_iff] at hn
    have ih := msFrom_spec hE as (AutoReset.step E st a).1 k hn
    simp only [List.getD_cons_succ, Nat.succ_sub_one]
    cases k with
    | zero =>
      simp only [List.getD_cons_zero]
      rw [ih]
      have hfl := step_flag_last hE st a
      simp [hfl]
    | succ j =>
      simp only [List.getD_cons_succ]
      rw [ih]
      simp [Nat.succ_sub_one]

/-- The `_reset` and `_step` of the test's `FakeEnvironment` are proper:
`_reset` returns FIRST, `_step` returns MID or LAST. -/
lemma properFakeEnv5 : ProperInner fakeEnv5 := by
  constructor
  · intro s
    rfl
  · intro s a
    unfold fakeEnv5
    dsimp only
    split <;> simp [transition, termination]

/-- C1: first part of the claim theorem below, for a run of public `step`
calls from a fresh instance. -/
lemma firstIffPrevLast_steps {σ α ω : Type} {E : InnerEnv σ α ω} (hE : ProperInner E)
    (s0 : σ) (acts : List α) :
    FirstIffPrevLast (msFrom E (AutoReset.init s0) acts) := by
  intro n hn
  rw [msFrom_spec hE acts (AutoReset.init s0) n hn]
  constructor
  · rintro (⟨h0, _⟩ | ⟨_, hl⟩)
    · exact Or.inl h0
    · exact Or.inr hl
  · rintro (h0 | hl)
    · exact Or.inl ⟨h0, rfl⟩
    · rcases Nat.eq_zero_or_pos n with h0 | hpos
      · exact Or.inl ⟨h0, rfl⟩
      · exact Or.inr ⟨hpos, hl⟩

/-- C1: the claim as stated is false: it asserts the FIRST ⟺ (n = 0 ∨
previous marker LAST) rule for *any* sequence of public `step`/`reset`
calls, but a public `reset()` issued mid-episode returns a FIRST step
whose predecessor is MID.  Concretely, on an auto-reset environment whose
`_step` always returns MID, the call sequence `step; step; reset` yields
the markers FIRST, MID, FIRST, violating the rule at n = 2. -/
theorem C1_counterexample :
    ¬ FirstIffPrevLast
        (markers (AutoReset.runCalls midEnv (AutoReset.init ())
          [AutoReset.EnvCall.stepCall (), AutoReset.EnvCall.stepCall (),
            AutoReset.EnvCall.resetCall])) := by
  decide

/-- C1 (amended): for an `AutoResetEnvironment` over proper `_reset` /
`_step` (`_reset` returns FIRST, `_step` returns only MID or LAST), (i)
along any run of public `step` calls from a fresh instance, the n-th
returned marker is FIRST iff n = 0 or the previous marker was LAST; (ii)
when the reset-pending flag is set, `step` ignores its action and
delegates to `reset()`; (iii) after every public `step` the flag is set
iff the returned marker is LAST; and (iv) stepping a fresh instance of the
MID-MID-MID-MID-LAST fake environment 10 times yields the marker sequence
FIRST, MID, MID, MID, MID, LAST, FIRST, MID, MID, MID.  (The original
claim extended (i) to arbitrary mixed `step`/`reset` call sequences,
which fails: see the counterexample.) -/
theorem C1_auto_reset_markers {σ α ω : Type} (E : InnerEnv σ α ω) (hE : ProperInner E)
    (s0 : σ) (acts : List α) :
    FirstIffPrevLast (msFrom E (AutoReset.init s0) acts) ∧
    (∀ (st : AutoResetState σ) (a : α), st.reset_next_step = true →
      AutoReset.step E st a = AutoReset.reset E st) ∧
    (∀ (st : AutoResetState σ) (a : α),
      (AutoReset.step E st a).1.reset_next_step = true ↔
        (AutoReset.step E st a).2.step_type = StepType.LAST) ∧
    msFrom fakeEnv5 (AutoReset.init 0) (List.replicate 10 ()) =
      [StepType.FIRST, StepType.MID, StepType.MID, StepType.MID, StepType.MID,
        StepType.LAST, StepType.FIRST, StepType.MID, StepType.MID, StepType.MID] := by
  refine ⟨firstIffPrevLast_steps hE s0 acts, ?_, ?_, by decide⟩
  · intro st a h
    unfold AutoReset.step
    simp [h]
  · intro st a
    exact step_flag_last hE st a

/-- C1 witness: the amended theorem applied to the fake environment with
three steps from a fresh instance. -/
theorem C1_auto_reset_markers_witness :
    FirstIffPrevLast (msFrom fakeEnv5 (AutoReset.init 0) (List.replicate 3 ())) ∧
    msFrom fakeEnv5 (AutoReset.init 0) (List.replicate 10 ()) =
      [StepType.FIRST, StepType.MID, StepType.MID, StepType.MID, StepType.MID,
        StepType.LAST, StepType.FIRST, StepType.MID, StepType.MID, StepType.MID] := by
  have h := C1_auto_reset_markers fakeEnv5 properFakeEnv5 0 (List.replicate 3 ())
  exact ⟨h.1, h.2.2.2⟩

/-- C2: `restart` returns FIRST with absent reward and discount;
`transition` returns MID with the given reward and discount (the Python
default `discount=1.0` being instantiation at 1); `termination` returns
LAST with discount exactly 0; `truncation` returns LAST with the given
discount (default 1); none of `transition` / `termination` / `truncation`
produces FIRST, and all four store the observation unchanged. -/
theorem C2_timestep_helpers {ω : Type} (o : ω) (r d : ℚ) :
    ((restart o).step_type = StepType.FIRST ∧ (restart o).reward = none ∧
      (restart o).discount = none ∧ (restart o).observation = o) ∧
    ((transition r o d).step_type = StepType.MID ∧ (transition r o d).reward = some r ∧
      (transition r o d).discount = some d ∧ (transition r o d).observation = o ∧
      (transition r o 1).discount = some 1) ∧
    ((termination r o).step_type = StepType.LAST ∧ (termination r o).reward = some r ∧
      (termination r o).discount = some 0 ∧ (termination r o).observation = o) ∧
    ((truncation r o d).step_type = StepType.LAST ∧ (truncation r o d).reward = some r ∧
      (truncation r o d).discount = some d ∧ (truncation r o d).observation = o ∧
      (truncation r o 1).discount = some 1) ∧
    ((transition r o d).step_type ≠ StepType.FIRST ∧
      (termination r o).step_type ≠ StepType.FIRST ∧
      (truncation r o d).step_type ≠ StepType.FIRST) := by
  refine ⟨⟨rfl, rfl, rfl, rfl⟩, ⟨rfl, rfl, rfl, rfl, rfl⟩, ⟨rfl, rfl, rfl, rfl⟩,
    ⟨rfl, rfl, rfl, rfl, rfl⟩, ?_, ?_, ?_⟩ <;> simp [transition, termination, truncation]

/-! ## The auto-reset wrapper with failing `_reset` / `_step` (for C10)

`_reset` and `_step` may raise; a raising call still leaves the subclass
state it produced up to the raise, so the fallible methods return a new
subclass state together with `Except`: `.error e` models a raised
exception propagating out of the public call. -/

/-- Fallible `_reset` / `_step` methods of an `AutoResetEnvironment`
subclass. -/
structure XInnerEnv (σ α ω ε : Type) where
  resetFn : σ → σ × Except ε (TimeStep ω)
  stepFn : σ → α → σ × Except ε (TimeStep ω)

namespace AutoResetX

variable {σ α ω ε : Type}

/-- `AutoResetEnvironment.__init__`: `self._reset_next_step = True`. -/
def init (s0 : σ) : AutoResetState σ :=
  ⟨s0, true⟩

/-- Public `reset`: the assignment `self._reset_next_step = False` happens
before `self._reset()` is invoked, so the flag is false in the resulting
state even when `_reset` raises. -/
def reset (E : XInnerEnv σ α ω ε) (st : AutoResetState σ) :
    AutoResetState σ × Except ε (TimeStep ω) :=
  let r := E.resetFn st.inner
  (⟨r.1, false⟩, r.2)

/-- Public `step`: if the flag is set, delegate to `reset()`; otherwise run
`_step(action)`.  The assignment `self._reset_next_step = timestep.last()`
only runs when `_step` returns normally; when `_step` raises, the flag
keeps its previous value. -/
def step (E : XInnerEnv σ α ω ε) (st : AutoResetState σ) (a : α) :
    AutoResetState σ × Except ε (TimeStep ω) :=
  if st.reset_next_step then
    reset E st
  else
    match E.stepFn st.inner a with
    | (s', Except.ok ts) => (⟨s', ts.last⟩, Except.ok ts)
    | (s', Except.error e) => (⟨s', st.reset_next_step⟩, Except.error e)

end AutoResetX

/-- C10: a freshly constructed `AutoResetEnvironment` has the
reset-pending flag set; `reset()` clears the flag before invoking
`_reset()`, so the flag is false after `reset()` even when `_reset`
raises; consequently, after an exception escapes a public `reset()` (or a
public `step()` that delegated to it), the next `step(action)` call runs
`_step(action)` instead of resetting. -/
theorem C10_reset_flag_on_exception {σ α ω ε : Type} (E : XInnerEnv σ α ω ε)
    (s0 : σ) (st : AutoResetState σ) (a : α) (e : ε) :
    (AutoResetX.init s0).reset_next_step = true ∧
    (AutoResetX.reset E st).1.reset_next_step = false ∧
    (st.reset_next_step = true → AutoResetX.step E st a = AutoResetX.reset E st) ∧
    (st.reset_next_step = false →
      (AutoResetX.step E st a).2 = (E.stepFn st.inner a).2 ∧
      (AutoResetX.step E st a).1.inner = (E.stepFn st.inner a).1) ∧
    ((AutoResetX.reset E st).2 = Except.error e →
      (AutoResetX.reset E st).1.reset_next_step = false ∧
      (AutoResetX.step E (AutoResetX.reset E st).1 a).2 =
        (E.stepFn (AutoResetX.reset E st).1.inner a).2) := by
  refine ⟨rfl, rfl, ?_, ?_, ?_⟩
  · intro h
    unfold AutoResetX.step
    simp [h]
  · intro h
    unfold AutoResetX.step
    rw [h]
    simp only [Bool.false_eq_true, if_false]
    rcases hs : E.stepFn st.inner a with ⟨s', r⟩
    cases r <;> simp
  · intro _
    refine ⟨rfl, ?_⟩
    unfold AutoResetX.step
    simp only [AutoResetX.reset, Bool.false_eq_true, if_false]
    rcases hs : E.stepFn (E.resetFn st.inner).1 a with ⟨s', r⟩
    cases r <;> simp

/-- An always-failing `_reset` paired with an always-MID `_step`, used to
witness C10. -/
def failResetEnv : XInnerEnv Unit Unit Unit Unit where
  resetFn := fun _ => ((), Except.error ())
  stepFn := fun _ _ => ((), Except.ok (transition 0 () 1))

/-- C10 witness: on the concrete failing environment, after a failed
`reset()` the flag is clear and the next `step` call runs `_step`. -/
theorem C10_reset_flag_on_exception_witness :
    (AutoResetX.reset failResetEnv (AutoResetX.init ())).1.reset_next_step = false ∧
    (AutoResetX.step failResetEnv (AutoResetX.reset failResetEnv (AutoResetX.init ())).1 ()).2 =
      Except.ok (transition 0 () 1) := by
  have h := C10_reset_flag_on_exception failResetEnv () (AutoResetX.init ()) () ()
  have h5 := h.2.2.2.2 rfl
  exact ⟨h5.1, h5.2.trans rfl⟩

/-! ## NumPy model for `specs.py`

Shapes are lists of dimension sizes; a multi-index into a shape is a list
of coordinates.  An n-d array is a shape, a dtype and a total element
function (only its values on valid multi-indices are ever used).
Broadcasting follows NumPy: shapes are aligned at their trailing
dimensions, and a source dimension must equal the target dimension or 1. -/

/-- An array shape: the list of dimension sizes. -/
abbrev Shape := List ℕ

/-- All valid multi-indices of a shape, in row-major order. -/
def indices : Shape → List (List ℕ)
  | [] => [[]]
  | d :: s => (List.range d).flatMap fun j => (indices s).map (j :: ·)

/-- Validity of a multi-index for a shape. -/
def ValidIdx (s : Shape) (i : List ℕ) : Prop :=
  i.length = s.length ∧ ∀ k : ℕ, k < s.length → i.getD k 0 < s.getD k 0

lemma getD_of_lt {β : Type} (l : List β) (d : β) (k : ℕ) (h : k < l.length) :
    l.getD k d = l[k] := by
  rw [List.getD_eq_getElem?_getD, List.getElem?_eq_getElem h, Option.getD_some]

lemma mem_indices_iff {s : Shape} {i : List ℕ} : i ∈ indices s ↔ ValidIdx s i := by
  induction s generalizing i with
  | nil =>
    simp only [indices, List.mem_singleton, ValidIdx, List.length_nil]
    constructor
    · rintro rfl
      exact ⟨rfl, fun k hk => absurd hk (Nat.not_lt_zero k)⟩
    · rintro ⟨hl, _⟩
      exact List.length_eq_zero.mp hl
  | cons d s ih =>
    simp only [indices, List.mem_flatMap, List.mem_map, List.mem_range]
    constructor
    · rintro ⟨j, hj, t, ht, rfl⟩
      rcases ih.mp ht with ⟨hl, hb⟩
      refine ⟨by simp [hl], ?_⟩
      intro k hk
      cases k with
      | zero => simpa using hj
      | succ m =>
        simp only [List.getD_cons_succ]
        exact hb m (Nat.lt_of_succ_lt_succ hk)
    · rintro ⟨hl, hb⟩
      cases i with
      | nil => simp at hl
      | cons j t =>
        refine ⟨j, by simpa using hb 0 (Nat.succ_pos _), t, ih.mpr ⟨by simpa using hl, ?_⟩, rfl⟩
        intro k hk
        simpa using hb (k + 1) (Nat.succ_lt_succ hk)

/-- NumPy broadcast compatibility of `src` to target shape `tgt`
(`np.broadcast_to(src_array, tgt)` succeeds): `src` has no more dimensions
than `tgt` and, after aligning at the trailing side, each `src` dimension
is 1 or equals the corresponding `tgt` dimension. -/
def bcastCompat (src tgt : Shape) : Bool :=
  decide (src.length ≤ tgt.length) &&
    (List.range src.length).all fun k =>
      src.getD k 1 == 1 || src.getD k 1 == tgt.getD (k + (tgt.length - src.length)) 1

/-- The source multi-index that a broadcast array reads for target
multi-index `i`: trailing-aligned, with coordinate 0 on broadcast (size-1)
dimensions. -/
def bcastIdx (src : Shape) (i : List ℕ) : List ℕ :=
  (List.range src.length).map fun k =>
    if src.getD k 1 = 1 then 0 else i.getD (k + (i.length - src.length)) 0

lemma bcastIdx_length (src : Shape) (i : List ℕ) : (bcastIdx src i).length = src.length := by
  simp [bcastIdx]

lemma bcastIdx_getD {src : Shape} {i : List ℕ} {k : ℕ} (hk : k < src.length) :
    (bcastIdx src i).getD k 0 =
      if src.getD k 1 = 1 then 0 else i.getD (k + (i.length - src.length)) 0 := by
  unfold bcastIdx
  rw [List.getD_eq_getElem?_getD, List.getElem?_map]
  simp [List.getElem?_range hk]

lemma bcastIdx_valid {src tgt : Shape} {i : List ℕ} (hc : bcastCompat src tgt = true)
    (hi : ValidIdx tgt i) : ValidIdx src (bcastIdx src i) := by
  rcases hi with ⟨hil, hib⟩
  unfold bcastCompat at hc
  rw [Bool.and_eq_true, decide_eq_true_eq, List.all_eq_true] at hc
  rcases hc with ⟨hlen, hdims⟩
  refine ⟨bcastIdx_length src i, ?_⟩
  intro k hk
  rw [bcastIdx_getD hk, getD_of_lt src 0 k hk, getD_of_lt src 1 k hk]
  have hd := hdims k (List.mem_range.mpr hk)
  rw [Bool.or_eq_true, beq_iff_eq, beq_iff_eq, getD_of_lt src 1 k hk] at hd
  by_cases h1 : src[k] = 1
  · simp [h1]
  · simp only [h1, if_false]
    rcases hd with hd1 | hde
    · exact absurd hd1 h1
    · have hkt : k + (tgt.length - src.length) < tgt.length := by omega
      have := hib _ hkt
      rw [getD_of_lt tgt 0 _ hkt] at this
      rw [getD_of_lt tgt 1 _ hkt] at hde
      rw [hde, hil]
      exact this

lemma bcastIdx_self {s : Shape} {i : List ℕ} (hi : ValidIdx s i) : bcastIdx s i = i := by
  rcases hi with ⟨hil, hib⟩
  apply List.ext_getElem
  · simp [bcastIdx, hil]
  · intro k hk1 hk2
    have hks : k < s.length := by simpa [bcastIdx] using hk1
    have h1 : (bcastIdx s i).getD k 0 = i.getD k 0 := by
      rw [bcastIdx_getD hks, hil, Nat.sub_self, Nat.add_zero, getD_of_lt s 1 k hks]
      by_cases h : s[k] = 1
      · rw [if_pos h]
        have hlt : i.getD k 0 < s.getD k 0 := hib k hks
        rw [getD_of_lt s 0 k hks, h] at hlt
        omega
      · rw [if_neg h]
    rw [← getD_of_lt _ 0 k hk1, ← getD_of_lt _ 0 k hk2, h1]

/-- The dimension a shape contributes at position `k` of a broadcast of
total rank `n`: its own trailing-aligned dimension, or 1 where it has no
dimension. -/
def alignedDim (s : Shape) (n k : ℕ) : ℕ :=
  if n - s.length ≤ k then s.getD (k - (n - s.length)) 1 else 1

/-- The NumPy shape resulting from broadcasting two shapes against each
other (total function; on incompatible shapes NumPy raises instead, and
the value returned here is irrelevant). -/
def mutualShape (s1 s2 : Shape) : Shape :=
  let n := max s1.length s2.length
  (List.range n).map fun k =>
    if alignedDim s1 n k = 1 then alignedDim s2 n k else alignedDim s1 n k

lemma mutualShape_left {S s : Shape} (hc : bcastCompat s S = true) : mutualShape S s = S := by
  unfold bcastCompat at hc
  rw [Bool.and_eq_true, decide_eq_true_eq, List.all_eq_true] at hc
  rcases hc with ⟨hlen, hdims⟩
  have hn : max S.length s.length = S.length := Nat.max_eq_left hlen
  apply List.ext_getElem
  · simp [mutualShape, hn]
  · intro k hk1 hk2
    have hkS : k < S.length := hk2
    simp only [mutualShape, hn, List.getElem_map, List.getElem_range]
    have hd1 : alignedDim S S.length k = S[k] := by
      unfold alignedDim
      rw [if_pos (by omega), Nat.sub_self, Nat.sub_zero, getD_of_lt S 1 k hkS]
    rw [hd1]
    by_cases hS1 : S[k] = 1
    · rw [if_pos hS1, hS1]
      unfold alignedDim
      by_cases hks : S.length - s.length ≤ k
      · rw [if_pos hks]
        have hkrange : k - (S.length - s.length) < s.length := by omega
        have hd := hdims (k - (S.length - s.length)) (List.mem_range.mpr hkrange)
        rw [Bool.or_eq_true, beq_iff_eq, beq_iff_eq] at hd
        have harg : k - (S.length - s.length) + (S.length - s.length) = k := by omega
        rw [harg] at hd
        rcases hd with hd' | hd'
        · rw [hd']
        · rw [hd', getD_of_lt S 1 k hkS, hS1]
      · rw [if_neg hks]
    · rw [if_neg hS1]

/-- An array element value: an exact rational, or one of the two
infinities.  Floating-point rounding and NaN are outside the model. -/
inductive Val where
  | fin (q : ℚ)
  | pinf
  | ninf
deriving DecidableEq, Repr

/-- Strict elementwise comparison `a < b` on values. -/
def vltB : Val → Val → Bool
  | .fin q, .fin r => decide (q < r)
  | .fin _, .pinf => true
  | .fin _, .ninf => false
  | .pinf, _ => false
  | .ninf, .ninf => false
  | .ninf, _ => true

/-- Elementwise comparison `a ≤ b` on values. -/
def vleB : Val → Val → Bool
  | .fin q, .fin r => decide (q ≤ r)
  | .fin _, .pinf => true
  | .fin _, .ninf => false
  | .pinf, .pinf => true
  | .pinf, _ => false
  | .ninf, _ => true

lemma not_vltB_iff_vleB (a b : Val) : vltB a b = false ↔ vleB b a = true := by
  cases a <;> cases b <;> simp [vltB, vleB]

lemma vleB_trans {a b c : Val} (h1 : vleB a b = true) (h2 : vleB b c = true) :
    vleB a c = true := by
  cases a <;> cases b <;> cases c <;> simp_all [vleB]
  exact le_trans h1 h2

/-- Elementwise multiplication on values, used for `np.ones(...) * x`.
Only products with a finite factor 1 occur in this development; the
indeterminate products 0 · ∞ (NaN in NumPy) are mapped to 0. -/
def vmul : Val → Val → Val
  | .fin q, .fin r => .fin (q * r)
  | .fin q, .pinf => if q > 0 then .pinf else if q < 0 then .ninf else .fin 0
  | .fin q, .ninf => if q > 0 then .ninf else if q < 0 then .pinf else .fin 0
  | .pinf, .fin q => if q > 0 then .pinf else if q < 0 then .ninf else .fin 0
  | .ninf, .fin q => if q > 0 then .ninf else if q < 0 then .pinf else .fin 0
  | .pinf, .pinf => .pinf
  | .pinf, .ninf => .ninf
  | .ninf, .pinf => .ninf
  | .ninf, .ninf => .pinf

lemma vmul_one (v : Val) : vmul (Val.fin 1) v = v := by
  cases v <;> simp [vmul]

/-- The element types appearing in this development: the fixed-width
integer dtypes, the double float dtype and the object dtype. -/
inductive DType where
  | int8
  | int16
  | int32
  | int64
  | uint8
  | uint16
  | uint32
  | uint64
  | float64
  | objectT
deriving DecidableEq, Repr

/-- Bit width of an integer dtype (0 for non-integer dtypes). -/
def DType.bits : DType → ℕ
  | .int8 => 8
  | .int16 => 16
  | .int32 => 32
  | .int64 => 64
  | .uint8 => 8
  | .uint16 => 16
  | .uint32 => 32
  | .uint64 => 64
  | _ => 0

/-- Whether the dtype is a signed integer type. -/
def DType.isSigned : DType → Bool
  | .int8 | .int16 | .int32 | .int64 => true
  | _ => false

/-- Whether the dtype is an unsigned integer type. -/
def DType.isUnsigned : DType → Bool
  | .uint8 | .uint16 | .uint32 | .uint64 => true
  | _ => false

/-- `np.issubdtype(dtype, np.integer)`. -/
def DType.isInteger (d : DType) : Bool := d.isSigned || d.isUnsigned

/-- Smallest representable value of an integer dtype. -/
def DType.lo (d : DType) : ℤ :=
  if d.isSigned then -(2 ^ (d.bits - 1)) else 0

/-- Largest representable value of an integer dtype. -/
def DType.hi (d : DType) : ℤ :=
  if d.isSigned then 2 ^ (d.bits - 1) - 1 else 2 ^ d.bits - 1

/-- C-style truncation toward zero of a rational, as NumPy uses when
casting floats to integer dtypes. -/
def truncQ (q : ℚ) : ℤ :=
  if 0 ≤ q then ⌊q⌋ else ⌈q⌉

lemma truncQ_mono {a b : ℚ} (h : a ≤ b) : truncQ a ≤ truncQ b := by
  unfold truncQ
  by_cases ha : 0 ≤ a
  · have hb : 0 ≤ b := le_trans ha h
    rw [if_pos ha, if_pos hb]
    exact Int.floor_mono h
  · by_cases hb : 0 ≤ b
    · rw [if_neg ha, if_pos hb]
      have h1 : ⌈a⌉ ≤ 0 := Int.ceil_le.mpr (by exact_mod_cast le_of_not_le ha)
      have h2 : (0 : ℤ) ≤ ⌊b⌋ := Int.le_floor.mpr (by exact_mod_cast hb)
      omega
    · rw [if_neg ha, if_neg hb]
      exact Int.ceil_mono h

lemma truncQ_intCast (n : ℤ) : truncQ (n : ℚ) = n := by
  unfold truncQ
  by_cases h : (0 : ℚ) ≤ (n : ℚ) <;> simp [h]

/-- Casting a single value to a dtype, as in `np.array(value, dtype=dt)`.
Float and object dtypes keep the exact value; integer dtypes truncate
toward zero and fail (NumPy's `OverflowError`) when the result does not
fit the dtype's range or the value is infinite. -/
def castVal (dt : DType) (v : Val) : Option Val :=
  if dt.isInteger then
    match v with
    | .fin q =>
      let n := truncQ q
      if dt.lo ≤ n ∧ n ≤ dt.hi then some (.fin (n : ℚ)) else none
    | _ => none
  else
    some v

lemma castVal_mono {dt : DType} {a b a' b' : Val} (hab : vleB a b = true)
    (ha : castVal dt a = some a') (hb : castVal dt b = some b') : vleB a' b' = true := by
  unfold castVal at ha hb
  by_cases hint : dt.isInteger = true
  · rw [if_pos hint] at ha hb
    cases a with
    | fin qa =>
      cases b with
      | fin qb =>
        dsimp only at ha hb
        by_cases hra : dt.lo ≤ truncQ qa ∧ truncQ qa ≤ dt.hi
        · by_cases hrb : dt.lo ≤ truncQ qb ∧ truncQ qb ≤ dt.hi
          · rw [if_pos hra] at ha
            rw [if_pos hrb] at hb
            rw [Option.some_inj] at ha hb
            subst ha
            subst hb
            have hq : qa ≤ qb := by simpa [vleB] using hab
            have := truncQ_mono hq
            simp only [vleB, decide_eq_true_eq]
            exact_mod_cast this
          · rw [if_neg hrb] at hb
            exact absurd hb (by simp)
        · rw [if_neg hra] at ha
          exact absurd ha (by simp)
      | pinf => exact absurd hb (by simp)
      | ninf => simp [vleB] at hab
    | pinf => exact absurd ha (by simp)
    | ninf => exact absurd ha (by simp)
  · rw [if_neg hint] at ha hb
    rw [Option.some_inj] at ha hb
    subst ha
    subst hb
    exact hab

lemma castVal_idem {dt : DType} {a a' : Val} (ha : castVal dt a = some a') :
    castVal dt a' = some a' := by
  unfold castVal at ha ⊢
  by_cases hint : dt.isInteger = true
  · rw [if_pos hint] at ha ⊢
    cases a with
    | fin qa =>
      dsimp only at ha
      by_cases hra : dt.lo ≤ truncQ qa ∧ truncQ qa ≤ dt.hi
      · rw [if_pos hra, Option.some_inj] at ha
        subst ha
        dsimp only
        rw [if_pos (by rw [truncQ_intCast]; exact hra), truncQ_intCast]
      · rw [if_neg hra] at ha
        exact absurd ha (by simp)
    | pinf => exact absurd ha (by simp)
    | ninf => exact absurd ha (by simp)
  · rw [if_neg hint]

/-- An n-dimensional NumPy array over `Val` elements: a shape, a dtype, a
total element function (only values at valid multi-indices are ever
used), and the writeable flag. -/
structure NDArr where
  shape : Shape
  dtype : DType
  elem : List ℕ → Val
  writeable : Bool

/-- The element a broadcast view of `a` presents at target multi-index
`i`. -/
def bcastEl (a : NDArr) (i : List ℕ) : Val :=
  a.elem (bcastIdx a.shape i)

/-- `np.broadcast_to(a, tgt)` (the result is a read-only view). -/
def broadcastTo (a : NDArr) (tgt : Shape) : NDArr :=
  ⟨tgt, a.dtype, fun i => bcastEl a i, false⟩

/-- An elementwise comparison reduced with `np.any`, e.g.
`np.any(a < b)` for `p = vltB`: the two operands are broadcast against
each other and `p` is tested at every position of the broadcast shape. -/
def npAnyCmp (p : Val → Val → Bool) (a b : NDArr) : Bool :=
  (indices (mutualShape a.shape b.shape)).any fun i => p (bcastEl a i) (bcastEl b i)

/-- `np.array(a, dtype=dt)`: elementwise cast, failing (NumPy's
`OverflowError`) when some element does not fit `dt`. -/
def castArr (dt : DType) (a : NDArr) : Option NDArr :=
  if (indices a.shape).all (fun i => (castVal dt (a.elem i)).isSome) then
    some ⟨a.shape, dt, fun i => (castVal dt (a.elem i)).getD (Val.fin 0), true⟩
  else
    none

/-- `arr.setflags(write=False)`. -/
def NDArr.readonly (a : NDArr) : NDArr :=
  ⟨a.shape, a.dtype, a.elem, false⟩

/-- `np.zeros(shape, dtype)`. -/
def npZeros (shape : Shape) (dt : DType) : NDArr :=
  ⟨shape, dt, fun _ => Val.fin 0, true⟩

/-- `np.ones(shape, dtype)`. -/
def npOnes (shape : Shape) (dt : DType) : NDArr :=
  ⟨shape, dt, fun _ => Val.fin 1, true⟩

/-- `self.dtype.type(arr)`: conversion of an array through a NumPy scalar
type.  In this development it is only applied to arrays already cast to
`dt`, on which it is value-preserving. -/
def dtypeTypeCast (dt : DType) (a : NDArr) : NDArr :=
  ⟨a.shape, dt, fun i => (castVal dt (a.elem i)).getD (Val.fin 0), a.writeable⟩

/-- Elementwise product with broadcasting, `a * b`.  Both operands share a
dtype wherever this is used, so no type promotion is modelled. -/
def npMul (a b : NDArr) : NDArr :=
  ⟨mutualShape a.shape b.shape, a.dtype,
    fun i => vmul (bcastEl a i) (bcastEl b i), true⟩

/-- The failures raised by `specs.py` (each a `ValueError` or `TypeError`
with its own message; the message distinguishes the cases, so they are
modelled as distinct errors). -/
inductive SpecErr where
  | shapeMismatch
  | dtypeMismatch
  | outOfBounds
  | invalidElementType
  | incompatibleMinimum
  | incompatibleMaximum
  | boundsOrder
  | invalidNumValues
  | nonIntegralDtype
  | dtypeOverflow
  | castOverflow
  | varArgsNotAllowed
  | varKwargsNotAllowed
deriving DecidableEq, Repr

/-- The `Array` spec class of `specs.py`: a shape, a dtype and an optional
name. -/
structure ArraySpec where
  shape : Shape
  dtype : DType
  name : Option String

/-- `Array.validate`: fail on a shape mismatch, then on a dtype mismatch,
else return the value. -/
def ArraySpec.validate (s : ArraySpec) (v : NDArr) : Except SpecErr NDArr :=
  if v.shape ≠ s.shape then Except.error SpecErr.shapeMismatch
  else if v.dtype ≠ s.dtype then Except.error SpecErr.dtypeMismatch
  else Except.ok v

/-- `Array.generate_value`: `np.zeros(shape=self.shape, dtype=self.dtype)`. -/
def ArraySpec.generate_value (s : ArraySpec) : NDArr :=
  npZeros s.shape s.dtype

/-- The `BoundedArray` spec class: an `Array` plus the stored (dtype-cast,
read-only) `_minimum` and `_maximum` arrays. -/
structure BoundedArraySpec extends ArraySpec where
  minimum : NDArr
  maximum : NDArr

/-- `BoundedArray.__init__`: broadcast `minimum` to `shape` (failing with
the minimum-incompatible message), broadcast `maximum` (failing with the
maximum-incompatible message), fail if any broadcast minimum exceeds the
corresponding broadcast maximum, then store both bounds cast to the dtype
(`np.array(bound, dtype=self.dtype)`) and made read-only. -/
def BoundedArraySpec.make (shape : Shape) (dtype : DType) (minimum maximum : NDArr)
    (name : Option String) : Except SpecErr BoundedArraySpec :=
  if bcastCompat minimum.shape shape = false then Except.error SpecErr.incompatibleMinimum
  else if bcastCompat maximum.shape shape = false then Except.error SpecErr.incompatibleMaximum
  else if npAnyCmp (fun x y => vltB y x) (broadcastTo minimum shape)
      (broadcastTo maximum shape) then Except.error SpecErr.boundsOrder
  else
    match castArr dtype minimum, castArr dtype maximum with
    | some mn, some mx => Except.ok ⟨⟨shape, dtype, name⟩, mn.readonly, mx.readonly⟩
    | none, _ => Except.error SpecErr.castOverflow
    | some _, none => Except.error SpecErr.castOverflow

/-- `BoundedArray.validate`: run `Array.validate`, then fail with the
out-of-bounds error if any element is below the broadcast stored minimum
or above the broadcast stored maximum. -/
def BoundedArraySpec.validate (s : BoundedArraySpec) (v : NDArr) : Except SpecErr NDArr :=
  match s.toArraySpec.validate v with
  | Except.error e => Except.error e
  | Except.ok _ =>
    if npAnyCmp vltB v s.minimum || npAnyCmp (fun x y => vltB y x) v s.maximum then
      Except.error SpecErr.outOfBounds
    else
      Except.ok v

/-- `BoundedArray.generate_value`:
`np.ones(shape=self.shape, dtype=self.dtype) * self.dtype.type(self.minimum)`. -/
def BoundedArraySpec.generate_value (s : BoundedArraySpec) : NDArr :=
  npMul (npOnes s.shape s.dtype) (dtypeTypeCast s.dtype s.minimum)

lemma bcastCompat_self (s : Shape) : bcastCompat s s = true := by
  unfold bcastCompat
  rw [Bool.and_eq_true, decide_eq_true_eq, List.all_eq_true]
  refine ⟨le_refl _, ?_⟩
  intro k hk
  rw [Nat.sub_self, Nat.add_zero]
  simp

lemma broadcastTo_el {a : NDArr} {S : Shape} {i : List ℕ} (hi : ValidIdx S i) :
    bcastEl (broadcastTo a S) i = bcastEl a i := by
  unfold broadcastTo bcastEl
  dsimp only
  rw [bcastIdx_self hi]

lemma castArr_some {dt : DType} {a arr : NDArr} (h : castArr dt a = some arr) :
    arr.shape = a.shape ∧ arr.dtype = dt ∧ arr.writeable = true ∧
      ∀ i ∈ indices a.shape, castVal dt (a.elem i) = some (arr.elem i) := by
  unfold castArr at h
  by_cases hc : (indices a.shape).all (fun i => (castVal dt (a.elem i)).isSome) = true
  · rw [if_pos hc, Option.some_inj] at h
    subst h
    refine ⟨rfl, rfl, rfl, ?_⟩
    intro i hi
    rw [List.all_eq_true] at hc
    rcases Option.isSome_iff_exists.mp (hc i hi) with ⟨x, hx⟩
    rw [hx]
    dsimp only
    rw [hx, Option.getD_some]
  · rw [if_neg hc] at h
    exact absurd h (by simp)

/-- Inversion of a successful `BoundedArray` construction. -/
lemma make_ok_inv {shape : Shape} {dtype : DType} {mn mx : NDArr} {name : Option String}
    {b : BoundedArraySpec} (h : BoundedArraySpec.make shape dtype mn mx name = Except.ok b) :
    b.shape = shape ∧ b.dtype = dtype ∧ b.name = name ∧
      bcastCompat mn.shape shape = true ∧ bcastCompat mx.shape shape = true ∧
      b.minimum.shape = mn.shape ∧ b.maximum.shape = mx.shape ∧
      b.minimum.dtype = dtype ∧ b.maximum.dtype = dtype ∧
      b.minimum.writeable = false ∧ b.maximum.writeable = false ∧
      (∀ i ∈ indices mn.shape, castVal dtype (mn.elem i) = some (b.minimum.elem i)) ∧
      (∀ i ∈ indices mx.shape, castVal dtype (mx.elem i) = some (b.maximum.elem i)) ∧
      (∀ i ∈ indices shape, vleB (bcastEl mn i) (bcastEl mx i) = true) := by
  unfold BoundedArraySpec.make at h
  by_cases hmn : bcastCompat mn.shape shape = false
  · rw [if_pos hmn] at h
    exact absurd h (by simp)
  rw [if_neg hmn] at h
  by_cases hmx : bcastCompat mx.shape shape = false
  · rw [if_pos hmx] at h
    exact absurd h (by simp)
  rw [if_neg hmx] at h
  rw [Bool.not_eq_false] at hmn hmx
  by_cases hord : npAnyCmp (fun x y => vltB y x) (broadcastTo mn shape)
      (broadcastTo mx shape) = true
  · rw [if_pos hord] at h
    exact absurd h (by simp)
  rw [if_neg hord] at h
  rcases hcmn : castArr dtype mn with _ | cmn
  · rw [hcmn] at h
    exact absurd h (by simp)
  rcases hcmx : castArr dtype mx with _ | cmx
  · rw [hcmn, hcmx] at h
    exact absurd h (by simp)
  rw [hcmn, hcmx] at h
  rw [Except.ok.injEq] at h
  subst h
  rcases castArr_some hcmn with ⟨hs1, hd1, _, he1⟩
  rcases castArr_some hcmx with ⟨hs2, hd2, _, he2⟩
  refine ⟨rfl, rfl, rfl, hmn, hmx, hs1, hs2, hd1, hd2, rfl, rfl, he1, he2, ?_⟩
  intro i hi
  rw [Bool.not_eq_true] at hord
  unfold npAnyCmp at hord
  rw [List.any_eq_false] at hord
  have hmut : mutualShape (broadcastTo mn shape).shape (broadcastTo mx shape).shape = shape := by
    unfold broadcastTo
    exact mutualShape_left (bcastCompat_self shape)
  rw [hmut] at hord
  have hvi : ValidIdx shape i := mem_indices_iff.mp hi
  have := hord i hi
  rw [broadcastTo_el hvi, broadcastTo_el hvi] at this
  rw [← not_vltB_iff_vleB]
  simpa using this

/-- The stored bounds of a successfully constructed `BoundedArray` are
elementwise ordered after broadcast to the spec shape. -/
lemma make_bounds_le {shape : Shape} {dtype : DType} {mn mx : NDArr} {name : Option String}
    {b : BoundedArraySpec} (h : BoundedArraySpec.make shape dtype mn mx name = Except.ok b) :
    ∀ i ∈ indices shape, vleB (bcastEl b.minimum i) (bcastEl b.maximum i) = true := by
  rcases make_ok_inv h with
    ⟨_, _, _, hcmn, hcmx, hs1, hs2, _, _, _, _, he1, he2, hord⟩
  intro i hi
  have hvi : ValidIdx shape i := mem_indices_iff.mp hi
  have hv1 : ValidIdx mn.shape (bcastIdx mn.shape i) := bcastIdx_valid hcmn hvi
  have hv2 : ValidIdx mx.shape (bcastIdx mx.shape i) := bcastIdx_valid hcmx hvi
  have hm1 := he1 _ (mem_indices_iff.mpr hv1)
  have hm2 := he2 _ (mem_indices_iff.mpr hv2)
  have hord' := hord i hi
  unfold bcastEl at hord' ⊢
  rw [hs1, hs2]
  exact castVal_mono hord' hm1 hm2

lemma vltB_irrefl (a : Val) : vltB a a = false := by
  cases a <;> simp [vltB]

lemma array_validate_ok {s : ArraySpec} {v : NDArr} (hs : v.shape = s.shape)
    (hd : v.dtype = s.dtype) : s.validate v = Except.ok v := by
  unfold ArraySpec.validate
  rw [if_neg (by simp [hs]), if_neg (by simp [hd])]

lemma bounded_validate_eq {s : BoundedArraySpec} {v : NDArr} (hs : v.shape = s.shape)
    (hd : v.dtype = s.dtype) :
    s.validate v =
      if npAnyCmp vltB v s.minimum || npAnyCmp (fun x y => vltB y x) v s.maximum then
        Except.error SpecErr.outOfBounds
      else
        Except.ok v := by
  unfold BoundedArraySpec.validate
  rw [array_validate_ok hs hd]

lemma npAnyCmp_left_iff {v bound : NDArr} {S : Shape} (p : Val → Val → Bool)
    (hv : v.shape = S) (hb : bcastCompat bound.shape S = true) :
    npAnyCmp p v bound = true ↔ ∃ i ∈ indices S, p (v.elem i) (bcastEl bound i) = true := by
  unfold npAnyCmp
  have hmut : mutualShape v.shape bound.shape = S := by
    rw [hv]
    exact mutualShape_left hb
  rw [hmut, List.any_eq_true]
  have hel : ∀ i ∈ indices S, bcastEl v i = v.elem i := by
    intro i hi
    unfold bcastEl
    rw [hv, bcastIdx_self (mem_indices_iff.mp hi)]
  constructor
  · rintro ⟨i, hi, hp⟩
    exact ⟨i, hi, by rwa [hel i hi] at hp⟩
  · rintro ⟨i, hi, hp⟩
    exact ⟨i, hi, by rwa [hel i hi]⟩

/-- C3: `BoundedArray` construction broadcasts `minimum` and `maximum`
independently to the spec shape, failing with the minimum-incompatible
error when `minimum` does not broadcast, with the maximum-incompatible
error when `maximum` does not broadcast (the two failures are
distinguished), and with the bounds-order error when some broadcast
element has minimum > maximum; consequently every successfully
constructed `BoundedArray` has stored element-type-cast bounds satisfying
minimum ≤ maximum elementwise after broadcast. -/
theorem C3_bounded_array_construction (shape : Shape) (dtype : DType) (mn mx : NDArr)
    (name : Option String) :
    (bcastCompat mn.shape shape = false →
      BoundedArraySpec.make shape dtype mn mx name = Except.error SpecErr.incompatibleMinimum) ∧
    (bcastCompat mn.shape shape = true → bcastCompat mx.shape shape = false →
      BoundedArraySpec.make shape dtype mn mx name = Except.error SpecErr.incompatibleMaximum) ∧
    (bcastCompat mn.shape shape = true → bcastCompat mx.shape shape = true →
      (∃ i ∈ indices shape, vltB (bcastEl mx i) (bcastEl mn i) = true) →
      BoundedArraySpec.make shape dtype mn mx name = Except.error SpecErr.boundsOrder) ∧
    (∀ b : BoundedArraySpec, BoundedArraySpec.make shape dtype mn mx name = Except.ok b →
      ∀ i ∈ indices shape, vleB (bcastEl b.minimum i) (bcastEl b.maximum i) = true) := by
  refine ⟨?_, ?_, ?_, ?_⟩
  · intro h
    unfold BoundedArraySpec.make
    rw [if_pos h]
  · intro h1 h2
    unfold BoundedArraySpec.make
    rw [if_neg (by rw [h1]; simp), if_pos h2]
  · rintro h1 h2 ⟨i, hi, hlt⟩
    unfold BoundedArraySpec.make
    rw [if_neg (by rw [h1]; simp), if_neg (by rw [h2]; simp)]
    have hvi : ValidIdx shape i := mem_indices_iff.mp hi
    have hcond : npAnyCmp (fun x y => vltB y x) (broadcastTo mn shape)
        (broadcastTo mx shape) = true := by
      unfold npAnyCmp
      have hmut : mutualShape (broadcastTo mn shape).shape (broadcastTo mx shape).shape =
          shape := mutualShape_left (bcastCompat_self shape)
      rw [hmut, List.any_eq_true]
      refine ⟨i, hi, ?_⟩
      rw [broadcastTo_el hvi, broadcastTo_el hvi]
      exact hlt
    rw [if_pos hcond]
  · intro b hb
    exact make_bounds_le hb

/-- A scalar (0-d) NumPy array holding the given value, as produced by
`np.asarray` on a Python number. -/
def scalarIn (v : Val) : NDArr :=
  ⟨[], DType.int64, fun _ => v, true⟩

/-- Fallback spec used only to extract the payload of an `Except.ok`. -/
def fallbackBounded : BoundedArraySpec :=
  ⟨⟨[], DType.float64, none⟩, scalarIn (Val.fin 0), scalarIn (Val.fin 0)⟩

/-- A 1-d length-2 integer input array. -/
def vec2In : NDArr :=
  ⟨[2], DType.int64, fun _ => Val.fin 0, true⟩

/-- A concrete successfully constructed spec:
`BoundedArray((2,), np.int32, minimum=0, maximum=10)`. -/
def demoBounded : BoundedArraySpec :=
  (BoundedArraySpec.make [2] DType.int32 (scalarIn (Val.fin 0)) (scalarIn (Val.fin 10))
    none).toOption.getD fallbackBounded

/-- C3 witness: the minimum-incompatible failure, the bounds-order
failure, and the stored-bounds invariant, each at concrete inputs. -/
theorem C3_bounded_array_construction_witness :
    BoundedArraySpec.make [3] DType.float64 vec2In (scalarIn (Val.fin 1)) none =
      Except.error SpecErr.incompatibleMinimum ∧
    BoundedArraySpec.make [] DType.float64 (scalarIn (Val.fin 1)) (scalarIn (Val.fin 0)) none =
      Except.error SpecErr.boundsOrder ∧
    vleB (bcastEl demoBounded.minimum [0]) (bcastEl demoBounded.maximum [0]) = true := by
  refine ⟨(C3_bounded_array_construction [3] DType.float64 vec2In (scalarIn (Val.fin 1))
    none).1 (by decide), ?_, ?_⟩
  · exact (C3_bounded_array_construction [] DType.float64 (scalarIn (Val.fin 1))
      (scalarIn (Val.fin 0)) none).2.2.1 (by decide) (by decide)
      ⟨[], by decide, by decide⟩
  · exact (C3_bounded_array_construction [2] DType.int32 (scalarIn (Val.fin 0))
      (scalarIn (Val.fin 10)) none).2.2.2 demoBounded rfl [0] (by decide)

/-- A value of the right shape and dtype each of whose elements equals
the broadcast stored minimum or the broadcast stored maximum validates
successfully. -/
lemma validate_at_bounds {shape : Shape} {dtype : DType} {mn mx : NDArr}
    {name : Option String} {b : BoundedArraySpec}
    (hmk : BoundedArraySpec.make shape dtype mn mx name = Except.ok b) {v : NDArr}
    (hs : v.shape = b.shape) (hd : v.dtype = b.dtype)
    (hbnd : ∀ i ∈ indices b.shape,
      v.elem i = bcastEl b.minimum i ∨ v.elem i = bcastEl b.maximum i) :
    b.validate v = Except.ok v := by
  rcases make_ok_inv hmk with
    ⟨hbs, hbd, _, hcmn, hcmx, hs1, hs2, _, _, _, _, _, _, _⟩
  have hminc : bcastCompat b.minimum.shape b.shape = true := by rw [hs1, hbs]; exact hcmn
  have hmaxc : bcastCompat b.maximum.shape b.shape = true := by rw [hs2, hbs]; exact hcmx
  rw [bounded_validate_eq hs hd]
  have hle := make_bounds_le hmk
  rw [← hbs] at hle
  have h1 : npAnyCmp vltB v b.minimum = false := by
    rw [← Bool.not_eq_true, npAnyCmp_left_iff vltB hs hminc]
    rintro ⟨i, hi, hp⟩
    rcases hbnd i hi with he | he
    · rw [he, vltB_irrefl] at hp
      exact absurd hp (by simp)
    · rw [he] at hp
      have := hle i hi
      rw [← not_vltB_iff_vleB] at this
      rw [this] at hp
      exact absurd hp (by simp)
  have h2 : npAnyCmp (fun x y => vltB y x) v b.maximum = false := by
    rw [← Bool.not_eq_true, npAnyCmp_left_iff (fun x y => vltB y x) hs hmaxc]
    rintro ⟨i, hi, hp⟩
    rcases hbnd i hi with he | he
    · rw [he] at hp
      have := hle i hi
      rw [← not_vltB_iff_vleB] at this
      rw [this] at hp
      exact absurd hp (by simp)
    · rw [he, vltB_irrefl] at hp
      exact absurd hp (by simp)
  rw [h1, h2]
  simp

/-- C4: on a successfully constructed `BoundedArray`, `validate` first
performs the `Array` shape and dtype checks, then fails with the
out-of-bounds error iff some element of the value is strictly below the
broadcast stored minimum or strictly above the broadcast stored maximum;
a value whose elements all equal one of the bounds (including an infinite
bound) validates successfully and is returned. -/
theorem C4_bounded_array_validate {shape : Shape} {dtype : DType} {mn mx : NDArr}
    {name : Option String} {b : BoundedArraySpec}
    (hmk : BoundedArraySpec.make shape dtype mn mx name = Except.ok b) (v : NDArr) :
    (v.shape ≠ b.shape → b.validate v = Except.error SpecErr.shapeMismatch) ∧
    (v.shape = b.shape → v.dtype ≠ b.dtype →
      b.validate v = Except.error SpecErr.dtypeMismatch) ∧
    (v.shape = b.shape → v.dtype = b.dtype →
      (b.validate v = Except.error SpecErr.outOfBounds ↔
        ∃ i ∈ indices b.shape, (vltB (v.elem i) (bcastEl b.minimum i) = true ∨
          vltB (bcastEl b.maximum i) (v.elem i) = true))) ∧
    (v.shape = b.shape → v.dtype = b.dtype →
      (∀ i ∈ indices b.shape, v.elem i = bcastEl b.minimum i ∨ v.elem i = bcastEl b.maximum i) →
      b.validate v = Except.ok v) := by
  rcases make_ok_inv hmk with
    ⟨hbs, hbd, _, hcmn, hcmx, hs1, hs2, _, _, _, _, _, _, _⟩
  have hminc : bcastCompat b.minimum.shape b.shape = true := by rw [hs1, hbs]; exact hcmn
  have hmaxc : bcastCompat b.maximum.shape b.shape = true := by rw [hs2, hbs]; exact hcmx
  refine ⟨?_, ?_, ?_, ?_⟩
  · intro h
    unfold BoundedArraySpec.validate ArraySpec.validate
    rw [if_pos h]
  · intro hs hd
    unfold BoundedArraySpec.validate ArraySpec.validate
    rw [if_neg (by simp [hs]), if_pos hd]
  · intro hs hd
    rw [bounded_validate_eq hs hd]
    have hiff1 := npAnyCmp_left_iff vltB hs hminc
    have hiff2 := npAnyCmp_left_iff (fun x y => vltB y x) hs hmaxc
    by_cases hcond : (npAnyCmp vltB v b.minimum ||
        npAnyCmp (fun x y => vltB y x) v b.maximum) = true
    · rw [if_pos hcond]
      simp only [Except.error.injEq, true_iff]
      rw [Bool.or_eq_true] at hcond
      rcases hcond with hc | hc
      · rcases hiff1.mp hc with ⟨i, hi, hp⟩
        exact ⟨i, hi, Or.inl hp⟩
      · rcases hiff2.mp hc with ⟨i, hi, hp⟩
        exact ⟨i, hi, Or.inr hp⟩
    · rw [if_neg hcond]
      constructor
      · intro h
        exact absurd h (by simp)
      · rintro ⟨i, hi, hp | hp⟩
        · exact absurd (Bool.or_eq_true _ _ ▸ Or.inl (hiff1.mpr ⟨i, hi, hp⟩)) hcond
        · exact absurd (Bool.or_eq_true _ _ ▸ Or.inr (hiff2.mpr ⟨i, hi, hp⟩)) hcond
  · intro hs hd hbnd
    exact validate_at_bounds hmk hs hd hbnd

/-- A value matching `demoBounded`'s shape and dtype with all elements 0
(equal to the minimum). -/
def demoValAtMin : NDArr :=
  ⟨[2], DType.int32, fun _ => Val.fin 0, true⟩

/-- A value matching `demoBounded`'s shape and dtype with all elements 11
(above the maximum). -/
def demoValAbove : NDArr :=
  ⟨[2], DType.int32, fun _ => Val.fin 11, true⟩

/-- C4 witness: on the concrete spec with bounds [0, 10], the value at the
minimum validates and is returned, and the value 11 fails with the
out-of-bounds error. -/
theorem C4_bounded_array_validate_witness :
    demoBounded.validate demoValAtMin = Except.ok demoValAtMin ∧
    demoBounded.validate demoValAbove = Except.error SpecErr.outOfBounds := by
  constructor
  · exact (@C4_bounded_array_validate [2] DType.int32 (scalarIn (Val.fin 0))
      (scalarIn (Val.fin 10)) none demoBounded rfl demoValAtMin).2.2.2 rfl rfl
      (by intro i hi; left; rfl)
  · exact ((@C4_bounded_array_validate [2] DType.int32 (scalarIn (Val.fin 0))
      (scalarIn (Val.fin 10)) none demoBounded rfl demoValAbove).2.2.1 rfl rfl).mpr
      ⟨[0], by decide, Or.inr (by decide)⟩

/-! ## `DiscreteArray` (for C5) -/

/-- NumPy safe-casting judgement `np.can_cast(d1, d2, casting='safe')`
restricted to the dtypes of this development.  NumPy's dtype ordering
`d1 < d2` is `can_cast(d1, d2, 'safe') and d1 != d2`. -/
def canCastSafe : DType → DType → Bool
  | _, DType.objectT => true
  | DType.objectT, _ => false
  | DType.float64, DType.float64 => true
  | DType.float64, _ => false
  | _, DType.float64 => true
  | d1, d2 =>
    if d1.isSigned then d2.isSigned && decide (d1.bits ≤ d2.bits)
    else if d2.isSigned then decide (d1.bits < d2.bits) else decide (d1.bits ≤ d2.bits)

/-- `np.min_scalar_type(m)` for a non-negative Python integer `m`: the
smallest unsigned integer dtype able to hold it, or the object dtype when
none can.  (`DiscreteArray` only applies it to `num_values - 1 ≥ 0`.) -/
def minScalarType (m : ℤ) : DType :=
  if m < 2 ^ 8 then DType.uint8
  else if m < 2 ^ 16 then DType.uint16
  else if m < 2 ^ 32 then DType.uint32
  else if m < 2 ^ 64 then DType.uint64
  else DType.objectT

/-- A Python number argument: either an `int` (an `np.integer` subdtype)
or a `float` (not an integer type, whatever its value). -/
inductive PyNum where
  | int (n : ℤ)
  | float (q : ℚ)

/-- The `DiscreteArray` spec class: a `BoundedArray` plus `_num_values`. -/
structure DiscreteArraySpec extends BoundedArraySpec where
  num_values : ℤ

/-- `DiscreteArray.__init__`: fail unless `num_values` is a positive
integer; fail unless the dtype is integral; fail if
`np.min_scalar_type(num_values - 1) > dtype`; otherwise delegate to
`BoundedArray.__init__` with shape `()`, minimum 0 and maximum
`num_values - 1`. -/
def DiscreteArraySpec.make (num_values : PyNum) (dtype : DType) (name : Option String) :
    Except SpecErr DiscreteArraySpec :=
  match num_values with
  | PyNum.float _ => Except.error SpecErr.invalidNumValues
  | PyNum.int n =>
    if n ≤ 0 then Except.error SpecErr.invalidNumValues
    else if ! dtype.isInteger then Except.error SpecErr.nonIntegralDtype
    else if canCastSafe dtype (minScalarType (n - 1)) && ! (dtype == minScalarType (n - 1))
    then Except.error SpecErr.dtypeOverflow
    else
      match BoundedArraySpec.make [] dtype (scalarIn (Val.fin 0))
          (scalarIn (Val.fin ((n - 1 : ℤ) : ℚ))) name with
      | Except.ok b => Except.ok ⟨b, n⟩
      | Except.error e => Except.error e

/-- Inversion of a successful `DiscreteArray` construction. -/
lemma discrete_make_ok {num : PyNum} {dtype : DType} {name : Option String}
    {d : DiscreteArraySpec} (h : DiscreteArraySpec.make num dtype name = Except.ok d) :
    ∃ n : ℤ, num = PyNum.int n ∧ 0 < n ∧ dtype.isInteger = true ∧ d.num_values = n ∧
      BoundedArraySpec.make [] dtype (scalarIn (Val.fin 0))
        (scalarIn (Val.fin ((n - 1 : ℤ) : ℚ))) name = Except.ok d.toBoundedArraySpec := by
  unfold DiscreteArraySpec.make at h
  cases num with
  | float q => exact absurd h (by simp)
  | int n =>
    dsimp only at h
    by_cases h0 : n ≤ 0
    · rw [if_pos h0] at h
      exact absurd h (by simp)
    rw [if_neg h0] at h
    by_cases hint : (! dtype.isInteger) = true
    · rw [if_pos hint] at h
      exact absurd h (by simp)
    rw [if_neg hint] at h
    by_cases hover : (canCastSafe dtype (minScalarType (n - 1)) &&
        ! (dtype == minScalarType (n - 1))) = true
    · rw [if_pos hover] at h
      exact absurd h (by simp)
    rw [if_neg hover] at h
    rcases hb : BoundedArraySpec.make [] dtype (scalarIn (Val.fin 0))
        (scalarIn (Val.fin ((n - 1 : ℤ) : ℚ))) name with e | b
    · rw [hb] at h
      exact absurd h (by simp)
    · rw [hb] at h
      rw [Except.ok.injEq] at h
      subst h
      refine ⟨n, rfl, by omega, by simpa using hint, rfl, hb⟩

lemma castVal_zero {dt : DType} (hint : dt.isInteger = true) :
    castVal dt (Val.fin 0) = some (Val.fin 0) := by
  unfold castVal
  rw [if_pos hint]
  dsimp only
  have ht : truncQ 0 = 0 := by
    unfold truncQ
    rw [if_pos (le_refl _)]
    simp
  rw [ht]
  rw [if_pos ?_]
  · simp
  · constructor
    · unfold DType.lo
      by_cases hs : dt.isSigned = true
      · rw [if_pos hs]
        have : (0 : ℤ) < 2 ^ (dt.bits - 1) := by positivity
        omega
      · rw [if_neg hs]
    · unfold DType.hi
      by_cases hs : dt.isSigned = true
      · rw [if_pos hs]
        have : (0 : ℤ) < 2 ^ (dt.bits - 1) := by positivity
        omega
      · rw [if_neg hs]
        have : (0 : ℤ) < 2 ^ dt.bits := by positivity
        omega

/-- C5: `DiscreteArray(num_values, dtype)` fails with the
invalid-num-values error when `num_values` is a float or is ≤ 0; fails
with the non-integral-dtype error when the dtype is not an integer kind;
fails with the dtype-overflow error when `np.min_scalar_type(num_values -
1)` is wider than the dtype in NumPy's safe-cast ordering; on success the
result is a `BoundedArray` of shape `()` with stored minimum 0 and stored
maximum `num_values - 1`; concretely, `num_values = 257` with `uint8`
fails with the dtype-overflow error while `num_values = 256` succeeds
with maximum 255. -/
theorem C5_discrete_array (q : ℚ) (n : ℤ) (dtype : DType) (name : Option String) :
    (DiscreteArraySpec.make (PyNum.float q) dtype name =
      Except.error SpecErr.invalidNumValues) ∧
    (n ≤ 0 → DiscreteArraySpec.make (PyNum.int n) dtype name =
      Except.error SpecErr.invalidNumValues) ∧
    (0 < n → dtype.isInteger = false →
      DiscreteArraySpec.make (PyNum.int n) dtype name =
        Except.error SpecErr.nonIntegralDtype) ∧
    (0 < n → dtype.isInteger = true →
      (canCastSafe dtype (minScalarType (n - 1)) && ! (dtype == minScalarType (n - 1))) = true →
      DiscreteArraySpec.make (PyNum.int n) dtype name =
        Except.error SpecErr.dtypeOverflow) ∧
    (∀ d : DiscreteArraySpec, DiscreteArraySpec.make (PyNum.int n) dtype name = Except.ok d →
      d.shape = [] ∧ d.num_values = n ∧ d.dtype = dtype ∧
      d.minimum.elem [] = Val.fin 0 ∧ d.maximum.elem [] = Val.fin ((n - 1 : ℤ) : ℚ)) ∧
    (DiscreteArraySpec.make (PyNum.int 257) DType.uint8 none =
      Except.error SpecErr.dtypeOverflow) ∧
    (∃ d : DiscreteArraySpec, DiscreteArraySpec.make (PyNum.int 256) DType.uint8 none =
      Except.ok d ∧ d.shape = [] ∧ d.num_values = 256 ∧
      d.maximum.elem [] = Val.fin 255) := by
  refine ⟨rfl, ?_, ?_, ?_, ?_, rfl, ?_⟩
  · intro h0
    unfold DiscreteArraySpec.make
    dsimp only
    rw [if_pos h0]
  · intro h0 hint
    unfold DiscreteArraySpec.make
    dsimp only
    rw [if_neg (by omega), if_pos (by rw [hint]; rfl)]
  · intro h0 hint hover
    unfold DiscreteArraySpec.make
    dsimp only
    rw [if_neg (by omega), if_neg (by rw [hint]; simp), if_pos hover]
  · intro d hd
    rcases discrete_make_ok hd with ⟨m, hm, hmpos, hint, hnum, hb⟩
    rw [PyNum.int.injEq] at hm
    subst hm
    rcases make_ok_inv hb with
      ⟨hbs, hbd, _, _, _, _, _, _, _, _, _, he1, he2, _⟩
    refine ⟨hbs, hnum, hbd, ?_, ?_⟩
    · have h1 := he1 [] (by simp [indices])
      dsimp only [scalarIn] at h1
      rw [castVal_zero hint, Option.some_inj] at h1
      exact h1.symm
    · have h2 := he2 [] (by simp [indices])
      dsimp only [scalarIn] at h2
      unfold castVal at h2
      rw [if_pos hint] at h2
      dsimp only at h2
      rw [truncQ_intCast] at h2
      by_cases hr : dtype.lo ≤ n - 1 ∧ n - 1 ≤ dtype.hi
      · rw [if_pos hr, Option.some_inj] at h2
        exact h2.symm
      · rw [if_neg hr] at h2
        exact absurd h2 (by simp)
  · exact ⟨(DiscreteArraySpec.make (PyNum.int 256) DType.uint8 none).toOption.getD
      ⟨fallbackBounded, 0⟩, rfl, rfl, rfl, rfl⟩

/-- C5 witness: the theorem applied at concrete failing inputs. -/
theorem C5_discrete_array_witness :
    DiscreteArraySpec.make (PyNum.int 0) DType.int32 none =
      Except.error SpecErr.invalidNumValues ∧
    DiscreteArraySpec.make (PyNum.int 5) DType.float64 none =
      Except.error SpecErr.nonIntegralDtype ∧
    DiscreteArraySpec.make (PyNum.int 257) DType.uint8 none =
      Except.error SpecErr.dtypeOverflow := by
  refine ⟨(C5_discrete_array 0 0 DType.int32 none).2.1 (by decide),
    (C5_discrete_array 0 5 DType.float64 none).2.2.1 (by decide) rfl,
    (C5_discrete_array 0 257 DType.uint8 none).2.2.2.1 (by decide) rfl (by decide)⟩

/-- C9: the stored `_minimum` / `_maximum` of a successfully constructed
`BoundedArray` are the dtype-cast bounds, marked read-only, and keep the
shape of the original constructor arguments rather than being broadcast
to the spec shape. -/
theorem C9_stored_bounds_shape {shape : Shape} {dtype : DType} {mn mx : NDArr}
    {name : Option String} {b : BoundedArraySpec}
    (hmk : BoundedArraySpec.make shape dtype mn mx name = Except.ok b) :
    b.minimum.shape = mn.shape ∧ b.maximum.shape = mx.shape ∧
    b.minimum.dtype = dtype ∧ b.maximum.dtype = dtype ∧
    b.minimum.writeable = false ∧ b.maximum.writeable = false ∧
    (∀ i ∈ indices mn.shape, castVal dtype (mn.elem i) = some (b.minimum.elem i)) ∧
    (∀ i ∈ indices mx.shape, castVal dtype (mx.elem i) = some (b.maximum.elem i)) := by
  rcases make_ok_inv hmk with
    ⟨_, _, _, _, _, hs1, hs2, hd1, hd2, hw1, hw2, he1, he2, _⟩
  exact ⟨hs1, hs2, hd1, hd2, hw1, hw2, he1, he2⟩

/-- The spec `BoundedArray((3, 4), np.float64, minimum=0.0, maximum=1.0)`
with scalar bound arguments. -/
def demoBounded34 : BoundedArraySpec :=
  (BoundedArraySpec.make [3, 4] DType.float64 (scalarIn (Val.fin 0)) (scalarIn (Val.fin 1))
    none).toOption.getD fallbackBounded

/-- C9 witness: a scalar bound supplied for a spec of shape (3, 4) is
stored as a 0-dimensional read-only array, not a (3, 4) array. -/
theorem C9_stored_bounds_shape_witness :
    demoBounded34.minimum.shape = ([] : Shape) ∧
    demoBounded34.minimum.writeable = false ∧
    demoBounded34.maximum.shape = ([] : Shape) := by
  have h := @C9_stored_bounds_shape [3, 4] DType.float64 (scalarIn (Val.fin 0))
    (scalarIn (Val.fin 1)) none demoBounded34 rfl
  exact ⟨h.1, h.2.2.2.2.1, h.2.1⟩

/-! ## `StringArray` (for C6 and C8) -/

/-- The two supported Python string kinds: `str` (text) and `bytes`. -/
inductive StrKind where
  | text
  | bytesK
deriving DecidableEq, Repr

/-- An element of an object array passed to `StringArray.validate`: a
text string, a byte string, or some other Python object. -/
inductive StrVal where
  | strV (s : String)
  | bytesV (s : String)
  | otherV (n : ℤ)
deriving DecidableEq, Repr

/-- `isinstance(item, self.string_type)`. -/
def StrVal.kindMatches : StrVal → StrKind → Bool
  | StrVal.strV _, StrKind.text => true
  | StrVal.bytesV _, StrKind.bytesK => true
  | _, _ => false

/-- The empty value of a string kind: `self.string_type()`. -/
def StrKind.empty : StrKind → StrVal
  | StrKind.text => StrVal.strV ""
  | StrKind.bytesK => StrVal.bytesV ""

/-- An object-dtype NumPy array of Python objects, as handled by
`StringArray`. -/
structure StrArr where
  shape : Shape
  elem : List ℕ → StrVal

/-- The `StringArray` spec class: shape, the string kind and an optional
name.  Its dtype is fixed to the object dtype. -/
structure StringArraySpec where
  shape : Shape
  string_type : StrKind
  name : Option String
deriving DecidableEq, Repr

/-- `StringArray.validate`: coerce to an object array, fail on a shape
mismatch, then fail on any element whose runtime type is not the spec's
string type. -/
def StringArraySpec.validate (s : StringArraySpec) (v : StrArr) : Except SpecErr StrArr :=
  if v.shape ≠ s.shape then Except.error SpecErr.shapeMismatch
  else if (indices v.shape).all (fun i => (v.elem i).kindMatches s.string_type) then
    Except.ok v
  else
    Except.error SpecErr.invalidElementType

/-- `StringArray.generate_value`: an array of the spec's shape filled with
the empty value of the string kind. -/
def StringArraySpec.generate_value (s : StringArraySpec) : StrArr :=
  ⟨s.shape, fun _ => s.string_type.empty⟩

/-- Shared core of C6 for `BoundedArray` (and hence `DiscreteArray`). -/
lemma bounded_generate_validate {shape : Shape} {dtype : DType} {mn mx : NDArr}
    {name : Option String} {b : BoundedArraySpec}
    (hmk : BoundedArraySpec.make shape dtype mn mx name = Except.ok b) :
    b.validate b.generate_value = Except.ok b.generate_value ∧
    b.generate_value.shape = b.shape ∧
    b.generate_value.dtype = b.dtype ∧
    (∀ i ∈ indices b.shape, b.generate_value.elem i = bcastEl b.minimum i) := by
  rcases make_ok_inv hmk with
    ⟨hbs, hbd, _, hcmn, hcmx, hs1, hs2, _, _, _, _, he1, _, _⟩
  have hminc : bcastCompat b.minimum.shape b.shape = true := by rw [hs1, hbs]; exact hcmn
  have hgs : b.generate_value.shape = b.shape := by
    unfold BoundedArraySpec.generate_value npMul npOnes dtypeTypeCast
    dsimp only
    exact mutualShape_left hminc
  have hgd : b.generate_value.dtype = b.dtype := rfl
  have helem : ∀ i ∈ indices b.shape, b.generate_value.elem i = bcastEl b.minimum i := by
    intro i hi
    have hvi : ValidIdx b.shape i := mem_indices_iff.mp hi
    have hj : ValidIdx mn.shape (bcastIdx mn.shape i) := by
      apply bcastIdx_valid hcmn
      rw [← hbs]
      exact hvi
    have hcast := he1 _ (mem_indices_iff.mpr hj)
    rw [← hs1] at hj hcast
    unfold BoundedArraySpec.generate_value npMul npOnes dtypeTypeCast bcastEl
    dsimp only
    rw [vmul_one]
    have hidem := castVal_idem hcast
    rw [← hbd] at hidem
    rw [hidem, Option.getD_some]
  refine ⟨?_, hgs, hgd, helem⟩
  exact validate_at_bounds hmk hgs hgd (fun i hi => Or.inl (helem i hi))

/-- C6: for every successfully constructed spec of each of the four
variants, `validate` accepts `generate_value()` and returns it unchanged;
`Array.generate_value()` is the zero array of the exact shape and dtype;
`BoundedArray.generate_value()` is the array of the spec's shape filled
with the broadcast minimum cast to the dtype. -/
theorem C6_generate_value_roundtrip :
    (∀ a : ArraySpec, a.validate a.generate_value = Except.ok a.generate_value ∧
      a.generate_value.shape = a.shape ∧ a.generate_value.dtype = a.dtype ∧
      (∀ i : List ℕ, a.generate_value.elem i = Val.fin 0)) ∧
    (∀ (shape : Shape) (dtype : DType) (mn mx : NDArr) (name : Option String)
        (b : BoundedArraySpec), BoundedArraySpec.make shape dtype mn mx name = Except.ok b →
      b.validate b.generate_value = Except.ok b.generate_value ∧
      b.generate_value.shape = b.shape ∧
      (∀ i ∈ indices b.shape, b.generate_value.elem i = bcastEl b.minimum i)) ∧
    (∀ (num : PyNum) (dtype : DType) (name : Option String) (d : DiscreteArraySpec),
        DiscreteArraySpec.make num dtype name = Except.ok d →
      d.toBoundedArraySpec.validate d.toBoundedArraySpec.generate_value =
        Except.ok d.toBoundedArraySpec.generate_value) ∧
    (∀ s : StringArraySpec, s.validate s.generate_value = Except.ok s.generate_value) := by
  refine ⟨?_, ?_, ?_, ?_⟩
  · intro a
    refine ⟨array_validate_ok rfl rfl, rfl, rfl, fun i => rfl⟩
  · intro shape dtype mn mx name b hmk
    rcases bounded_generate_validate hmk with ⟨hv, hs, _, he⟩
    exact ⟨hv, hs, he⟩
  · intro num dtype name d hd
    rcases discrete_make_ok hd with ⟨n, _, _, _, _, hb⟩
    exact (bounded_generate_validate hb).1
  · intro s
    unfold StringArraySpec.validate StringArraySpec.generate_value
    rw [if_neg (by simp)]
    rw [if_pos ?_]
    rw [List.all_eq_true]
    intro i hi
    cases hk : s.string_type <;> simp [StrKind.empty, StrVal.kindMatches, hk]

/-- The spec `StringArray(shape=(2,), string_type=str)`. -/
def demoString : StringArraySpec :=
  ⟨[2], StrKind.text, none⟩

/-- C6 witness: the round trip evaluated on concrete specs of each
variant with a constructor hypothesis discharged by `rfl`. -/
theorem C6_generate_value_roundtrip_witness :
    demoBounded.validate demoBounded.generate_value =
      Except.ok demoBounded.generate_value ∧
    demoString.validate demoString.generate_value =
      Except.ok demoString.generate_value := by
  refine ⟨(C6_generate_value_roundtrip.2.1 [2] DType.int32 (scalarIn (Val.fin 0))
    (scalarIn (Val.fin 10)) none demoBounded rfl).1, C6_generate_value_roundtrip.2.2.2
    demoString⟩

/-! ## `replace` (for C7)

`Array.replace` reads the current value of every constructor parameter
from the same-named attribute, overlays the overrides, and re-invokes the
constructor.  Each concrete class is modelled with one optional override
slot per constructor parameter; `none` means "not overridden".  For
`BoundedArray` the attributes read are the *stored* (dtype-cast) bounds. -/

/-- The kind of a constructor parameter, as classified by
`inspect.signature` in `Array._get_constructor_kwargs`. -/
inductive ParamKind where
  | positionalOrKeyword
  | varPositional
  | varKeyword
  | keywordOnly
deriving DecidableEq, Repr

/-- The kind check of `Array._get_constructor_kwargs`: reject `*args`
first, then `**kwargs`. -/
def getConstructorKwargsKindCheck (kinds : List ParamKind) : Except SpecErr Unit :=
  if kinds.contains ParamKind.varPositional then Except.error SpecErr.varArgsNotAllowed
  else if kinds.contains ParamKind.varKeyword then Except.error SpecErr.varKwargsNotAllowed
  else Except.ok ()

/-- `Array.replace` for a concrete `Array`: overlay the overrides on the
current attributes and re-invoke the constructor. -/
def ArraySpec.replace (a : ArraySpec) (shape2 : Option Shape) (dtype2 : Option DType)
    (name2 : Option (Option String)) : ArraySpec :=
  ⟨shape2.getD a.shape, dtype2.getD a.dtype, name2.getD a.name⟩

/-- `replace` for a concrete `BoundedArray`: the attributes read are
`shape`, `dtype`, the stored `minimum` / `maximum`, and `name`; the
constructor re-runs all its checks. -/
def BoundedArraySpec.replace (b : BoundedArraySpec) (shape2 : Option Shape)
    (dtype2 : Option DType) (minimum2 maximum2 : Option NDArr)
    (name2 : Option (Option String)) : Except SpecErr BoundedArraySpec :=
  BoundedArraySpec.make (shape2.getD b.shape) (dtype2.getD b.dtype)
    (minimum2.getD b.minimum) (maximum2.getD b.maximum) (name2.getD b.name)

/-- `replace` for a concrete `DiscreteArray`: its constructor parameters
are `num_values`, `dtype` and `name`. -/
def DiscreteArraySpec.replace (d : DiscreteArraySpec) (num2 : Option PyNum)
    (dtype2 : Option DType) (name2 : Option (Option String)) :
    Except SpecErr DiscreteArraySpec :=
  DiscreteArraySpec.make (num2.getD (PyNum.int d.num_values)) (dtype2.getD d.dtype)
    (name2.getD d.name)

/-- `replace` for a concrete `StringArray`: its constructor parameters
are `shape`, `string_type` and `name`. -/
def StringArraySpec.replace (s : StringArraySpec) (shape2 : Option Shape)
    (kind2 : Option StrKind) (name2 : Option (Option String)) : StringArraySpec :=
  ⟨shape2.getD s.shape, kind2.getD s.string_type, name2.getD s.name⟩

/-- The spec `BoundedArray((), np.float64, minimum=0.0, maximum=1.0)`. -/
def demoBounded01 : BoundedArraySpec :=
  (BoundedArraySpec.make [] DType.float64 (scalarIn (Val.fin 0)) (scalarIn (Val.fin 1))
    none).toOption.getD fallbackBounded

/-- C7 counterexample: the claim promises that for any single override
value `x`, `replace` returns a new spec whose overridden attribute equals
`x`.  On `BoundedArray((), float64, minimum=0, maximum=1)`, overriding
`minimum` with 5 instead raises the bounds-order error (the re-invoked
constructor re-runs its checks), so no spec is returned at all. -/
theorem C7_counterexample :
    BoundedArraySpec.replace demoBounded01 none none (some (scalarIn (Val.fin 5))) none none =
      Except.error SpecErr.boundsOrder ∧
    (∀ r : BoundedArraySpec,
      BoundedArraySpec.replace demoBounded01 none none (some (scalarIn (Val.fin 5))) none none ≠
        Except.ok r) := by
  refine ⟨rfl, ?_⟩
  intro r h
  rw [show BoundedArraySpec.replace demoBounded01 none none (some (scalarIn (Val.fin 5)))
    none none = Except.error SpecErr.boundsOrder from rfl] at h
  exact absurd h (by simp)

/-- `BoundedArray.make` succeeds outright once its checks hold. -/
lemma make_eq_ok {shape : Shape} {dtype : DType} {mn mx : NDArr} (name : Option String)
    (h1 : bcastCompat mn.shape shape = true) (h2 : bcastCompat mx.shape shape = true)
    (h3 : npAnyCmp (fun x y => vltB y x) (broadcastTo mn shape) (broadcastTo mx shape) = false)
    {cmn cmx : NDArr} (h4 : castArr dtype mn = some cmn) (h5 : castArr dtype mx = some cmx) :
    BoundedArraySpec.make shape dtype mn mx name =
      Except.ok ⟨⟨shape, dtype, name⟩, cmn.readonly, cmx.readonly⟩ := by
  unfold BoundedArraySpec.make
  rw [if_neg (by rw [h1]; simp), if_neg (by rw [h2]; simp), if_neg (by rw [h3]; simp),
    h4, h5]

/-- Re-casting an already-cast array succeeds and is the identity up to
the writeable flag. -/
lemma castArr_idem {dt : DType} {a arr : NDArr} (h : castArr dt a = some arr) :
    ∃ arr2 : NDArr, castArr dt arr = some arr2 ∧ arr2.shape = arr.shape ∧
      arr2.dtype = dt ∧ (∀ i ∈ indices arr.shape, arr2.elem i = arr.elem i) := by
  rcases castArr_some h with ⟨hs, _, _, he⟩
  have hall : (indices arr.shape).all (fun i => (castVal dt (arr.elem i)).isSome) = true := by
    rw [List.all_eq_true]
    intro i hi
    rw [hs] at hi
    rw [castVal_idem (he i hi)]
    rfl
  refine ⟨⟨arr.shape, dt, fun i => (castVal dt (arr.elem i)).getD (Val.fin 0), true⟩, ?_, rfl,
    rfl, ?_⟩
  · unfold castArr
    rw [if_pos hall]
  · intro i hi
    rw [hs] at hi
    dsimp only
    rw [castVal_idem (he i hi), Option.getD_some]

/-- The order check of `make` passes on the stored bounds of a
successfully constructed spec. -/
lemma stored_bounds_order_ok {shape : Shape} {dtype : DType} {mn mx : NDArr}
    {name : Option String} {b : BoundedArraySpec}
    (hmk : BoundedArraySpec.make shape dtype mn mx name = Except.ok b) :
    npAnyCmp (fun x y => vltB y x) (broadcastTo b.minimum b.shape)
      (broadcastTo b.maximum b.shape) = false := by
  rcases make_ok_inv hmk with ⟨hbs, _, _, _, _, _, _, _, _, _, _, _, _, _⟩
  have hle := make_bounds_le hmk
  rw [← hbs] at hle
  unfold npAnyCmp
  rw [List.any_eq_false]
  intro i hi
  have hmut : mutualShape (broadcastTo b.minimum b.shape).shape
      (broadcastTo b.maximum b.shape).shape = b.shape :=
    mutualShape_left (bcastCompat_self b.shape)
  rw [hmut] at hi
  have hvi : ValidIdx b.shape i := mem_indices_iff.mp hi
  rw [broadcastTo_el hvi, broadcastTo_el hvi]
  show ¬ vltB (bcastEl b.maximum i) (bcastEl b.minimum i) = true
  rw [Bool.not_eq_true, not_vltB_iff_vleB]
  exact hle i hi

/-- C7 (amended): `replace` overlays the overrides on the attributes read
from the spec and re-invokes the constructor.  For `Array` and
`StringArray` (total constructors) the result has the overridden
attribute equal to the override and every other attribute equal to the
original's.  For `BoundedArray`, when the re-invoked constructor's checks
pass, the result's non-overridden attributes equal the original's and an
overridden bound is stored as the override cast to the dtype; overriding
only `name` always succeeds and preserves the bounds.  For
`DiscreteArray`, a successful `num_values` override yields the new
`num_values` with dtype and name preserved.  `_get_constructor_kwargs`
fails when the constructor has `*args` (and then with the `**kwargs`
error when it has `**kwargs`).  (The original claim promised a new spec
for *any* override value; an override violating the constructor's checks
raises instead — see the counterexample.) -/
theorem C7_replace_attributes :
    (∀ (a : ArraySpec) (s2 : Shape) (d2 : DType) (n2 : Option String),
      a.replace (some s2) none none = ⟨s2, a.dtype, a.name⟩ ∧
      a.replace none (some d2) none = ⟨a.shape, d2, a.name⟩ ∧
      a.replace none none (some n2) = ⟨a.shape, a.dtype, n2⟩) ∧
    (∀ (shape : Shape) (dtype : DType) (mn mx : NDArr) (name : Option String)
        (b : BoundedArraySpec), BoundedArraySpec.make shape dtype mn mx name = Except.ok b →
      (∀ (x : NDArr) (r : BoundedArraySpec),
        b.replace none none (some x) none none = Except.ok r →
        r.shape = b.shape ∧ r.dtype = b.dtype ∧ r.name = b.name ∧
        r.minimum.shape = x.shape ∧
        (∀ i ∈ indices x.shape, castVal b.dtype (x.elem i) = some (r.minimum.elem i)) ∧
        r.maximum.shape = b.maximum.shape ∧
        (∀ i ∈ indices b.maximum.shape, r.maximum.elem i = b.maximum.elem i)) ∧
      (∀ n2 : Option String, ∃ r : BoundedArraySpec,
        b.replace none none none none (some n2) = Except.ok r ∧
        r.name = n2 ∧ r.shape = b.shape ∧ r.dtype = b.dtype ∧
        r.minimum.shape = b.minimum.shape ∧
        (∀ i ∈ indices b.minimum.shape, r.minimum.elem i = b.minimum.elem i) ∧
        r.maximum.shape = b.maximum.shape ∧
        (∀ i ∈ indices b.maximum.shape, r.maximum.elem i = b.maximum.elem i))) ∧
    (∀ (num : PyNum) (dtype : DType) (name : Option String) (d : DiscreteArraySpec),
        DiscreteArraySpec.make num dtype name = Except.ok d →
      ∀ (m : ℤ) (r : DiscreteArraySpec),
        d.replace (some (PyNum.int m)) none none = Except.ok r →
        r.num_values = m ∧ r.dtype = d.dtype ∧ r.name = d.name) ∧
    (∀ (s : StringArraySpec) (s2 : Shape) (k2 : StrKind) (n2 : Option String),
      s.replace (some s2) none none = ⟨s2, s.string_type, s.name⟩ ∧
      s.replace none (some k2) none = ⟨s.shape, k2, s.name⟩ ∧
      s.replace none none (some n2) = ⟨s.shape, s.string_type, n2⟩) ∧
    (∀ kinds : List ParamKind,
      (kinds.contains ParamKind.varPositional = true →
        getConstructorKwargsKindCheck kinds = Except.error SpecErr.varArgsNotAllowed) ∧
      (kinds.contains ParamKind.varPositional = false →
        kinds.contains ParamKind.varKeyword = true →
        getConstructorKwargsKindCheck kinds = Except.error SpecErr.varKwargsNotAllowed) ∧
      (kinds.contains ParamKind.varPositional = false →
        kinds.contains ParamKind.varKeyword = false →
        getConstructorKwargsKindCheck kinds = Except.ok ())) := by
  refine ⟨fun a s2 d2 n2 => ⟨rfl, rfl, rfl⟩, ?_, ?_, fun s s2 k2 n2 => ⟨rfl, rfl, rfl⟩, ?_⟩
  · intro shape dtype mn mx name b hmk
    rcases make_ok_inv hmk with
      ⟨hbs, hbd, hbn, hcmn, hcmx, hs1, hs2, hd1, hd2, _, _, he1, he2, _⟩
    constructor
    · intro x r hr
      unfold BoundedArraySpec.replace at hr
      simp only [Option.getD_some, Option.getD_none] at hr
      rcases make_ok_inv hr with
        ⟨hrs, hrd, hrn, _, _, hrs1, hrs2, _, _, _, _, hre1, hre2, _⟩
      refine ⟨hrs, hrd, hrn, hrs1, hre1, by rw [hrs2], ?_⟩
      intro i hi
      have hx := hre2 i hi
      have hidem := castVal_idem (he2 i (by rwa [hs2] at hi))
      rw [← hbd] at hidem
      rw [hidem, Option.some_inj] at hx
      exact hx.symm
    · intro n2
      have hminc : bcastCompat b.minimum.shape b.shape = true := by rw [hs1, hbs]; exact hcmn
      have hmaxc : bcastCompat b.maximum.shape b.shape = true := by rw [hs2, hbs]; exact hcmx
      have hcmn' : castArr b.dtype b.minimum = some ⟨b.minimum.shape, b.dtype,
          fun i => (castVal b.dtype (b.minimum.elem i)).getD (Val.fin 0), true⟩ := by
        have hall : (indices b.minimum.shape).all
            (fun i => (castVal b.dtype (b.minimum.elem i)).isSome) = true := by
          rw [List.all_eq_true]
          intro i hi
          rw [hs1] at hi
          have := castVal_idem (he1 i hi)
          rw [← hbd] at this
          rw [this]
          rfl
        unfold castArr
        rw [if_pos hall]
      have hcmx' : castArr b.dtype b.maximum = some ⟨b.maximum.shape, b.dtype,
          fun i => (castVal b.dtype (b.maximum.elem i)).getD (Val.fin 0), true⟩ := by
        have hall : (indices b.maximum.shape).all
            (fun i => (castVal b.dtype (b.maximum.elem i)).isSome) = true := by
          rw [List.all_eq_true]
          intro i hi
          rw [hs2] at hi
          have := castVal_idem (he2 i hi)
          rw [← hbd] at this
          rw [this]
          rfl
        unfold castArr
        rw [if_pos hall]
      have hmk2 := make_eq_ok n2 hminc hmaxc (stored_bounds_order_ok hmk) hcmn' hcmx'
      refine ⟨⟨⟨b.shape, b.dtype, n2⟩,
        NDArr.readonly ⟨b.minimum.shape, b.dtype,
          fun i => (castVal b.dtype (b.minimum.elem i)).getD (Val.fin 0), true⟩,
        NDArr.readonly ⟨b.maximum.shape, b.dtype,
          fun i => (castVal b.dtype (b.maximum.elem i)).getD (Val.fin 0), true⟩⟩,
        ?_, rfl, rfl, rfl, rfl, ?_, rfl, ?_⟩
      · unfold BoundedArraySpec.replace
        simp only [Option.getD_some, Option.getD_none]
        exact hmk2
      · intro i hi
        have hidem := castVal_idem (he1 i (by rwa [hs1] at hi))
        rw [← hbd] at hidem
        show (castVal b.dtype (b.minimum.elem i)).getD (Val.fin 0) = b.minimum.elem i
        rw [hidem, Option.getD_some]
      · intro i hi
        have hidem := castVal_idem (he2 i (by rwa [hs2] at hi))
        rw [← hbd] at hidem
        show (castVal b.dtype (b.maximum.elem i)).getD (Val.fin 0) = b.maximum.elem i
        rw [hidem, Option.getD_some]
  · intro num dtype name d hd m r hr
    unfold DiscreteArraySpec.replace at hr
    simp only [Option.getD_some, Option.getD_none] at hr
    rcases discrete_make_ok hr with ⟨n', hn', _, _, hnum, hb⟩
    rw [PyNum.int.injEq] at hn'
    rcases make_ok_inv hb with ⟨_, hbd', hbn', _⟩
    rcases discrete_make_ok hd with ⟨n0, _, _, _, _, hb0⟩
    rcases make_ok_inv hb0 with ⟨_, hbd0, hbn0, _⟩
    exact ⟨by rw [hnum, ← hn'], by rw [hbd', hbd0], by rw [hbn', hbn0]⟩
  · intro kinds
    refine ⟨?_, ?_, ?_⟩
    · intro h
      unfold getConstructorKwargsKindCheck
      rw [if_pos h]
    · intro h1 h2
      unfold getConstructorKwargsKindCheck
      rw [if_neg (by rw [h1]; simp), if_pos h2]
    · intro h1 h2
      unfold getConstructorKwargsKindCheck
      rw [if_neg (by rw [h1]; simp), if_neg (by rw [h2]; simp)]

/-- The result of overriding `minimum` with 5 on the [0, 10] demo spec. -/
def demoReplaced : BoundedArraySpec :=
  (demoBounded.replace none none (some (scalarIn (Val.fin 5))) none none).toOption.getD
    fallbackBounded

/-- C7 witness: concrete single-attribute overrides for `Array` and for
`BoundedArray` (a valid `minimum` override), and the variadic kind
check. -/
theorem C7_replace_attributes_witness :
    ArraySpec.replace ⟨[2], DType.int32, none⟩ (some [3]) none none =
      ⟨[3], DType.int32, none⟩ ∧
    demoReplaced.shape = demoBounded.shape ∧
    demoReplaced.name = demoBounded.name ∧
    castVal demoBounded.dtype (Val.fin 5) = some (demoReplaced.minimum.elem []) ∧
    getConstructorKwargsKindCheck [ParamKind.positionalOrKeyword, ParamKind.varPositional] =
      Except.error SpecErr.varArgsNotAllowed := by
  have harr := (C7_replace_attributes.1 ⟨[2], DType.int32, none⟩ [3] DType.int32 none).1
  have hb := (C7_replace_attributes.2.1 [2] DType.int32 (scalarIn (Val.fin 0))
    (scalarIn (Val.fin 10)) none demoBounded rfl).1 (scalarIn (Val.fin 5)) demoReplaced rfl
  have hvar := (C7_replace_attributes.2.2.2.2
    [ParamKind.positionalOrKeyword, ParamKind.varPositional]).1 rfl
  exact ⟨harr, hb.1, hb.2.2.1, hb.2.2.2.2.1 [] (by decide), hvar⟩

/-! ## Spec equality (for C8)

Python dispatches `a == b` to `type(a).__eq__` unless `type(b)` is a
strict subclass of `type(a)`, in which case `type(b)`'s method runs
first.  `Array.__eq__` compares shape and dtype after an
`isinstance(other, Array)` check; `BoundedArray.__eq__` additionally
requires `isinstance(other, BoundedArray)` and elementwise-equal bounds;
`DiscreteArray` and `StringArray` define no `__eq__` of their own and
inherit `BoundedArray.__eq__` and `Array.__eq__` respectively.  A
comparison in which neither side's method claims the objects are equal
evaluates to `False`. -/

/-- A spec object of one of the four concrete classes. -/
inductive SpecU where
  | arrayS (a : ArraySpec)
  | boundedS (b : BoundedArraySpec)
  | discreteS (d : DiscreteArraySpec)
  | stringS (s : StringArraySpec)

/-- The concrete class of a spec object. -/
inductive SpecCls where
  | clsArray
  | clsBounded
  | clsDiscrete
  | clsString
deriving DecidableEq, Repr

/-- `type(spec)`. -/
def SpecU.cls : SpecU → SpecCls
  | SpecU.arrayS _ => SpecCls.clsArray
  | SpecU.boundedS _ => SpecCls.clsBounded
  | SpecU.discreteS _ => SpecCls.clsDiscrete
  | SpecU.stringS _ => SpecCls.clsString

/-- The `shape` attribute of any spec object. -/
def SpecU.shape : SpecU → Shape
  | SpecU.arrayS a => a.shape
  | SpecU.boundedS b => b.shape
  | SpecU.discreteS d => d.shape
  | SpecU.stringS s => s.shape

/-- The `dtype` attribute of any spec object (`StringArray` fixes the
object dtype). -/
def SpecU.dtype : SpecU → DType
  | SpecU.arrayS a => a.dtype
  | SpecU.boundedS b => b.dtype
  | SpecU.discreteS d => d.dtype
  | SpecU.stringS _ => DType.objectT

/-- The underlying `BoundedArray` data when the object is an instance of
`BoundedArray` (`isinstance(other, BoundedArray)`). -/
def SpecU.boundedData : SpecU → Option BoundedArraySpec
  | SpecU.boundedS b => some b
  | SpecU.discreteS d => some d.toBoundedArraySpec
  | _ => none

/-- Strict subclass relation between the concrete classes. -/
def strictSubclass : SpecCls → SpecCls → Bool
  | SpecCls.clsBounded, SpecCls.clsArray => true
  | SpecCls.clsDiscrete, SpecCls.clsArray => true
  | SpecCls.clsDiscrete, SpecCls.clsBounded => true
  | SpecCls.clsString, SpecCls.clsArray => true
  | _, _ => false

/-- A Python object appearing in an equality comparison with a spec. -/
inductive PyObj where
  | specV (s : SpecU)
  | intV (n : ℤ)

/-- `(a == b).all()` for two bound arrays (NumPy broadcasts the two
operands against each other). -/
def npAllEq (a b : NDArr) : Bool :=
  (indices (mutualShape a.shape b.shape)).all fun i => bcastEl a i == bcastEl b i

/-- `Array.__eq__`: `False` unless `other` is an `Array` instance, else
compare shape and dtype. -/
def arrayEqMethod (self : SpecU) (other : PyObj) : Bool :=
  match other with
  | PyObj.specV o => decide (self.shape = o.shape) && decide (self.dtype = o.dtype)
  | _ => false

/-- `BoundedArray.__eq__`: `False` unless `other` is a `BoundedArray`
instance, else the `Array` comparison plus elementwise-equal minimum and
maximum. -/
def boundedEqMethod (self : BoundedArraySpec) (other : PyObj) : Bool :=
  match other with
  | PyObj.specV o =>
    match o.boundedData with
    | some ob =>
      (decide (self.shape = o.shape) && decide (self.dtype = o.dtype)) &&
        npAllEq self.minimum ob.minimum && npAllEq self.maximum ob.maximum
    | none => false
  | _ => false

/-- The `__eq__` implementation a spec object's class resolves to:
`BoundedArray.__eq__` for `BoundedArray` and `DiscreteArray`,
`Array.__eq__` for `Array` and `StringArray` (which overrides nothing). -/
def methodEq : SpecU → PyObj → Bool
  | SpecU.boundedS b, other => boundedEqMethod b other
  | SpecU.discreteS d, other => boundedEqMethod d.toBoundedArraySpec other
  | s, other => arrayEqMethod s other

/-- Python `a == b` for specs and non-spec objects, with the
subclass-first dispatch rule. -/
def pyEq : PyObj → PyObj → Bool
  | PyObj.specV s1, PyObj.specV s2 =>
    if strictSubclass (SpecU.cls s2) (SpecU.cls s1) then methodEq s2 (PyObj.specV s1)
    else methodEq s1 (PyObj.specV s2)
  | PyObj.specV s1, o => methodEq s1 o
  | PyObj.intV _, PyObj.specV s2 => methodEq s2 (PyObj.intV 0)
  | PyObj.intV n, PyObj.intV m => decide (n = m)

/-- C8 counterexample: the claim says two `StringArray` specs are equal
iff they additionally have the same string kind, but `StringArray`
defines no `__eq__` of its own, so the inherited `Array.__eq__` compares
only shape and dtype: a text spec and a bytes spec of the same shape
compare equal. -/
theorem C8_counterexample :
    pyEq (PyObj.specV (SpecU.stringS ⟨[], StrKind.text, none⟩))
      (PyObj.specV (SpecU.stringS ⟨[], StrKind.bytesK, none⟩)) = true ∧
    (⟨[], StrKind.text, none⟩ : StringArraySpec).string_type ≠
      (⟨[], StrKind.bytesK, none⟩ : StringArraySpec).string_type := by
  exact ⟨rfl, by decide⟩

/-- C8 (amended): two `Array` specs are equal iff they have the same
shape and dtype; two `BoundedArray` specs are equal iff they additionally
have elementwise-equal broadcast minima and maxima; two `StringArray`
specs are equal iff they have the same shape — the string kind is *not*
compared, because `StringArray` inherits `Array.__eq__` (their dtypes
both being the object dtype); and comparison of a spec with a non-spec
object is `False` in either order.  (The original claim asserted that
`StringArray` equality additionally compares the string kind.) -/
theorem C8_spec_equality :
    (∀ a1 a2 : ArraySpec,
      pyEq (PyObj.specV (SpecU.arrayS a1)) (PyObj.specV (SpecU.arrayS a2)) = true ↔
        (a1.shape = a2.shape ∧ a1.dtype = a2.dtype)) ∧
    (∀ b1 b2 : BoundedArraySpec,
      pyEq (PyObj.specV (SpecU.boundedS b1)) (PyObj.specV (SpecU.boundedS b2)) = true ↔
        (b1.shape = b2.shape ∧ b1.dtype = b2.dtype ∧
          (∀ i ∈ indices (mutualShape b1.minimum.shape b2.minimum.shape),
            bcastEl b1.minimum i = bcastEl b2.minimum i) ∧
          (∀ i ∈ indices (mutualShape b1.maximum.shape b2.maximum.shape),
            bcastEl b1.maximum i = bcastEl b2.maximum i))) ∧
    (∀ s1 s2 : StringArraySpec,
      pyEq (PyObj.specV (SpecU.stringS s1)) (PyObj.specV (SpecU.stringS s2)) = true ↔
        s1.shape = s2.shape) ∧
    (∀ (s : SpecU) (n : ℤ),
      pyEq (PyObj.specV s) (PyObj.intV n) = false ∧
      pyEq (PyObj.intV n) (PyObj.specV s) = false) := by
  refine ⟨?_, ?_, ?_, ?_⟩
  · intro a1 a2
    show (arrayEqMethod (SpecU.arrayS a1) (PyObj.specV (SpecU.arrayS a2)) = true) ↔ _
    unfold arrayEqMethod
    simp [SpecU.shape, SpecU.dtype]
  · intro b1 b2
    show (boundedEqMethod b1 (PyObj.specV (SpecU.boundedS b2)) = true) ↔ _
    unfold boundedEqMethod SpecU.boundedData
    dsimp only
    rw [Bool.and_eq_true, Bool.and_eq_true, Bool.and_eq_true, decide_eq_true_eq,
      decide_eq_true_eq]
    unfold npAllEq
    rw [List.all_eq_true, List.all_eq_true]
    constructor
    · rintro ⟨⟨⟨h1, h2⟩, h3⟩, h4⟩
      refine ⟨h1, h2, ?_, ?_⟩
      · intro i hi
        have := h3 i hi
        rwa [beq_iff_eq] at this
      · intro i hi
        have := h4 i hi
        rwa [beq_iff_eq] at this
    · rintro ⟨h1, h2, h3, h4⟩
      refine ⟨⟨⟨h1, h2⟩, ?_⟩, ?_⟩
      · intro i hi
        rw [beq_iff_eq]
        exact h3 i hi
      · intro i hi
        rw [beq_iff_eq]
        exact h4 i hi
  · intro s1 s2
    show (arrayEqMethod (SpecU.stringS s1) (PyObj.specV (SpecU.stringS s2)) = true) ↔ _
    unfold arrayEqMethod
    simp [SpecU.shape, SpecU.dtype]
  · intro s n
    cases s <;> exact ⟨rfl, rfl⟩

/-- C8 witness for the amended characterization: concrete equal and
unequal pairs. -/
theorem C8_spec_equality_witness :
    pyEq (PyObj.specV (SpecU.arrayS ⟨[2], DType.int32, none⟩))
      (PyObj.specV (SpecU.arrayS ⟨[2], DType.int32, some "x"⟩)) = true ∧
    pyEq (PyObj.specV (SpecU.arrayS ⟨[2], DType.int32, none⟩))
      (PyObj.specV (SpecU.arrayS ⟨[3], DType.int32, none⟩)) = false := by
  constructor
  · exact (C8_spec_equality.1 ⟨[2], DType.int32, none⟩ ⟨[2], DType.int32, some "x"⟩).mpr
      ⟨rfl, rfl⟩
  · rw [← Bool.not_eq_true]
    intro h
    have := (C8_spec_equality.1 ⟨[2], DType.int32, none⟩ ⟨[3], DType.int32, none⟩).mp h
    simp at this

end DmEnv
